import Mathlib

/-!
Verification of the crjm-server tournament coordinator against its
specification.  Each game engine and the tournament/match/session managers
are shallowly embedded from the TypeScript sources; the numbered claims of
the specification are settled as theorems about those embeddings.

Conventions shared by all embeddings:
* JS `string | null` identifier fields become `Option Nat` (identifiers are
  opaque; only equality is ever used on them).
* JS numbers used as board coordinates become `Int` (the sources compare
  them with `< 0`), loop counters become `Nat`.
* A JS `Map` becomes an association list that preserves insertion order;
  `Map.set` updates in place or appends, exactly like the JS `Map`.
* In-place mutation of objects found by id becomes a functional update of
  every match slot carrying that id (the sources guarantee unique ids).
-/

-- ===========================================================================
-- Common role / result types (src/src/core/types.ts)
-- ===========================================================================

inductive PlayerRole : Type
| player1
| player2
deriving DecidableEq, Repr

def PlayerRole.other : PlayerRole → PlayerRole
| .player1 => .player2
| .player2 => .player1

/-- `GameResult = PlayerRole | 'draw' | null` from types.ts; `null` is
modelled as `none` around this inductive. -/
inductive GameOutcome : Type
| winBy (r : PlayerRole)
| draw
deriving DecidableEq, Repr

-- ===========================================================================
-- Quelhas engine (src/src/core/game-engine/quelhas.ts)
-- ===========================================================================

namespace Quelhas

inductive Cell : Type
| empty
| filled
deriving DecidableEq, Repr

abbrev Board := List (List Cell)

structure QMove : Type where
  cells : List (Int × Int)
  swap : Bool := false
deriving DecidableEq, Repr

structure QState : Type where
  board : Board
  currentPlayer : PlayerRole
  lastMove : Option QMove
  winner : Option GameOutcome
  moveCount : Nat
  canSwap : Bool
  swapped : Bool
deriving DecidableEq, Repr

def boardSize : Nat := 10

def minSegmentLength : Nat := 2

/-- `state.board[row][col]`; `none` plays the role of JS `undefined` for
out-of-range indices (negative or too large). -/
def cellAt (b : Board) (r c : Int) : Option Cell :=
  if r < 0 || c < 0 then none
  else (b[r.toNat]?).bind fun row => row[c.toNat]?

/-- `state.board[row][col] === 'empty'` (JS `undefined === 'empty'` is
false, hence the `some`). -/
def isEmptyAt (b : Board) (r c : Int) : Bool :=
  cellAt b r c == some .empty

def createInitialState (startingPlayer : PlayerRole) : QState :=
  { board := List.replicate boardSize (List.replicate boardSize .empty)
    currentPlayer := startingPlayer
    lastMove := none
    winner := none
    moveCount := 0
    canSwap := false
    swapped := false }

/-- comparator of `areCellsContiguous`: sort by row, then by column. -/
def cellLE (a b : Int × Int) : Bool :=
  a.1 < b.1 || (a.1 == b.1 && a.2 ≤ b.2)

/-- insertion step of `sortCells`. -/
def insertCell (x : Int × Int) : List (Int × Int) → List (Int × Int)
| [] => [x]
| y :: ys => if cellLE x y then x :: y :: ys else y :: insertCell x ys

/-- `[...cells].sort(comparator)`: `cellLE` is a total order whose ties are
identical pairs, so insertion sort returns the same list as any comparator
sort. -/
def sortCells : List (Int × Int) → List (Int × Int)
| [] => []
| x :: xs => insertCell x (sortCells xs)

/-- the contiguity scan of `areCellsContiguous`: consecutive sorted cells
must differ by one in the running coordinate. -/
def contiguousChain (allSameRow : Bool) : List (Int × Int) → Bool
| a :: b :: rest =>
    (if allSameRow then b.2 == a.2 + 1 else b.1 == a.1 + 1) &&
      contiguousChain allSameRow (b :: rest)
| _ => true

def areCellsContiguous (cells : List (Int × Int)) : Bool :=
  if cells.length < 2 then true
  else
    match sortCells cells with
    | [] => true
    | c0 :: rest =>
      let sorted := c0 :: rest
      let allSameRow := sorted.all fun c => c.1 == c0.1
      let allSameCol := sorted.all fun c => c.2 == c0.2
      if !allSameRow && !allSameCol then false
      else contiguousChain allSameRow sorted

def isVerticalSegment (cells : List (Int × Int)) : Bool :=
  match cells with
  | [] => false
  | c0 :: rest =>
    if rest.isEmpty then false
    else (c0 :: rest).all fun c => c.2 == c0.2

def isHorizontalSegment (cells : List (Int × Int)) : Bool :=
  match cells with
  | [] => false
  | c0 :: rest =>
    if rest.isEmpty then false
    else (c0 :: rest).all fun c => c.1 == c0.1

def inBounds (r c : Int) : Bool :=
  !(r < 0 || boardSize ≤ r || c < 0 || boardSize ≤ c)

def validateMove (s : QState) (m : QMove) (p : PlayerRole) : Bool :=
  if s.winner ≠ none then false
  else if s.currentPlayer ≠ p then false
  else if m.swap then s.canSwap && p == .player2 && !s.swapped
  else if m.cells.length < minSegmentLength then false
  else if !(m.cells.all fun c => inBounds c.1 c.2 && isEmptyAt s.board c.1 c.2) then
    false
  else if !areCellsContiguous m.cells then false
  else
    let isVert := isVerticalSegment m.cells
    let isHorz := isHorizontalSegment m.cells
    if !isVert && !isHorz then false
    else
      let effectivePlayer := if s.swapped then p.other else p
      if effectivePlayer == PlayerRole.player1 && !isVert then false
      else if effectivePlayer == PlayerRole.player2 && !isHorz then false
      else true

/-- `newState.board[row][col] = 'filled'` (in-range writes only; callers are
validated). -/
def setCell (b : Board) (r c : Int) (v : Cell) : Board :=
  if r < 0 || c < 0 then b
  else b.set r.toNat ((b.getD r.toNat []).set c.toNat v)

/-- iteration core of the `while (endRow < BOARD_SIZE && board[endRow][col]
=== 'empty')` scan of `getValidMoves`; `fuel` bounds the remaining loop
iterations (`boardSize - r` always suffices). -/
def emptyRunEndAux (b : Board) (col : Nat) : Nat → Nat → Nat
| 0, r => r
| fuel + 1, r =>
  if r < boardSize && isEmptyAt b r col then emptyRunEndAux b col fuel (r + 1)
  else r

/-- first index `≥ r` down column `col` that is out of range or not empty. -/
def emptyRunEnd (b : Board) (col : Nat) (r : Nat) : Nat :=
  emptyRunEndAux b col (boardSize - r) r

/-- the horizontal twin of `emptyRunEndAux`, scanning along a row. -/
def emptyRunEndHAux (b : Board) (row : Nat) : Nat → Nat → Nat
| 0, c => c
| fuel + 1, c =>
  if c < boardSize && isEmptyAt b row c then emptyRunEndHAux b row fuel (c + 1)
  else c

/-- first index `≥ c` along row `row` that is out of range or not empty. -/
def emptyRunEndH (b : Board) (row : Nat) (c : Nat) : Nat :=
  emptyRunEndHAux b row (boardSize - c) c

/-- the segment generator of `getValidMoves` for one line (a column when
`vert`, a row otherwise): all sub-segments of length `len ∈ [2, maxLen]` of
each maximal empty run. -/
def lineSegments (b : Board) (vert : Bool) (line : Nat) : List QMove :=
  (List.range boardSize).flatMap fun start =>
    let stop := if vert then emptyRunEnd b line start
      else emptyRunEndH b line start
    let maxLen := stop - start
    (List.range' minSegmentLength (maxLen + 1 - minSegmentLength)).flatMap fun len =>
      (List.range' start (stop + 1 - len - start)).map fun a =>
        { cells := (List.range' a len).map fun i =>
            if vert then ((i : Int), (line : Int)) else ((line : Int), (i : Int))
          swap := false }

/-- `m.cells.map(...).sort().join('|')`, the canonical duplicate key: the
source canonicalises the cell multiset by sorting its printed cells; we
canonicalise the same multiset by `mergeSort`, and keep `none` for the
`'swap'` key. Both keys identify moves exactly when their cell multisets
agree, so the deduplication below keeps the same moves as the source. -/
def canonKey (m : QMove) : Option (List (Int × Int)) :=
  if m.swap then none else some (sortCells m.cells)

def dedupMoves (seen : List (Option (List (Int × Int)))) :
    List QMove → List QMove
| [] => []
| m :: rest =>
  let k := canonKey m
  if seen.contains k then dedupMoves seen rest
  else m :: dedupMoves (k :: seen) rest

def getValidMoves (s : QState) (p : PlayerRole) : List QMove :=
  let swapMoves : List QMove :=
    if s.canSwap && p == PlayerRole.player2 && !s.swapped then
      [{ cells := [], swap := true }]
    else []
  let effectivePlayer := if s.swapped then p.other else p
  let isVert := effectivePlayer == PlayerRole.player1
  let segMoves := (List.range boardSize).flatMap fun line =>
    lineSegments s.board isVert line
  dedupMoves [] (swapMoves ++ segMoves)

def hasValidMoves (s : QState) (p : PlayerRole) : Bool :=
  !(getValidMoves s p).isEmpty

def applyMove (s : QState) (m : QMove) (p : PlayerRole) : QState :=
  if m.swap && s.canSwap then
    { s with
      swapped := true
      canSwap := false
      currentPlayer := .player1
      moveCount := s.moveCount + 1 }
  else
    let b := m.cells.foldl (fun b c => setCell b c.1 c.2 .filled) s.board
    let mc := s.moveCount + 1
    let s1 : QState :=
      { s with
        board := b
        lastMove := some m
        moveCount := mc
        canSwap := mc == 1
        currentPlayer := p.other }
    if !hasValidMoves s1 p.other then
      { s1 with winner := some (.winBy p.other) }
    else s1

def isGameOver (s : QState) : Bool :=
  s.winner ≠ none

def getWinner (s : QState) : Option GameOutcome :=
  s.winner

/-- concrete near-full board: only the cells `(0,0)` and `(1,0)` are empty. -/
def nearFullBoard : Board :=
  (Cell.empty :: List.replicate 9 .filled) ::
    (Cell.empty :: List.replicate 9 .filled) ::
      List.replicate 8 (List.replicate 10 .filled)

def nearFullState : QState :=
  { board := nearFullBoard
    currentPlayer := .player1
    lastMove := none
    winner := none
    moveCount := 5
    canSwap := false
    swapped := false }

def fillingMove : QMove :=
  { cells := [(0, 0), (1, 0)], swap := false }

end Quelhas

-- ===========================================================================
-- Gatos & Caes engine (engine source, unnamed part_003)
-- ===========================================================================

namespace GatosCaes

inductive GCell : Type
| empty
| cat
| dog
deriving DecidableEq, Repr

abbrev Board := List (List GCell)

structure GMove : Type where
  row : Int
  col : Int
deriving DecidableEq, Repr

structure GState : Type where
  board : Board
  currentPlayer : PlayerRole
  catCount : Nat
  dogCount : Nat
  lastMove : Option GMove
  winner : Option GameOutcome
  isFirstCatPlaced : Bool
  isFirstDogPlaced : Bool
deriving DecidableEq, Repr

def boardSize : Nat := 8

def maxCats : Nat := 28

def maxDogs : Nat := 28

/-- `state.board[row][col]`; `none` for out-of-range indices. -/
def cellAt (b : Board) (r c : Int) : Option GCell :=
  if r < 0 || c < 0 then none
  else (b[r.toNat]?).bind fun row => row[c.toNat]?

def createInitialState (startingPlayer : PlayerRole) : GState :=
  { board := List.replicate boardSize (List.replicate boardSize .empty)
    currentPlayer := startingPlayer
    catCount := 0
    dogCount := 0
    lastMove := none
    winner := none
    isFirstCatPlaced := false
    isFirstDogPlaced := false }

/-- central zone: rows 3-4, cols 3-4. -/
def isInCentralZone (row col : Int) : Bool :=
  3 ≤ row && row ≤ 4 && 3 ≤ col && col ≤ 4

def pieceOf (p : PlayerRole) : GCell :=
  if p == .player1 then .cat else .dog

def opponentOf (piece : GCell) : GCell :=
  if piece == .cat then .dog else .cat

def neighborsOf (row col : Int) : List (Int × Int) :=
  [(row - 1, col), (row + 1, col), (row, col - 1), (row, col + 1)]

def inBounds (r c : Int) : Bool :=
  0 ≤ r && r < boardSize && 0 ≤ c && c < boardSize

def hasAdjacentOpponent (b : Board) (row col : Int) (piece : GCell) : Bool :=
  (neighborsOf row col).any fun n =>
    inBounds n.1 n.2 && (cellAt b n.1 n.2 == some (opponentOf piece))

def validateMove (s : GState) (m : GMove) (p : PlayerRole) : Bool :=
  if s.winner ≠ none then false
  else if s.currentPlayer ≠ p then false
  else if m.row < 0 || boardSize ≤ m.row || m.col < 0 || boardSize ≤ m.col then
    false
  else if cellAt s.board m.row m.col ≠ some .empty then false
  else if p == .player1 && !s.isFirstCatPlaced && !isInCentralZone m.row m.col then
    false
  else if p != .player1 && !s.isFirstDogPlaced && isInCentralZone m.row m.col then
    false
  else if hasAdjacentOpponent s.board m.row m.col (pieceOf p) then false
  else true

/-- C6 spec side, from the specification's own words: game not terminal,
the mover's turn, cell in bounds and empty, the two first-placement zone
rules, and no orthogonal neighbour of the opposite species. -/
def LegalPlacementSpec (s : GState) (m : GMove) (p : PlayerRole) : Prop :=
  s.winner = none ∧
  s.currentPlayer = p ∧
  (0 ≤ m.row ∧ m.row < 8 ∧ 0 ≤ m.col ∧ m.col < 8) ∧
  cellAt s.board m.row m.col = some .empty ∧
  (p = .player1 → s.isFirstCatPlaced = false →
    (m.row = 3 ∨ m.row = 4) ∧ (m.col = 3 ∨ m.col = 4)) ∧
  (p = .player2 → s.isFirstDogPlaced = false →
    ¬ ((m.row = 3 ∨ m.row = 4) ∧ (m.col = 3 ∨ m.col = 4))) ∧
  ∀ n ∈ neighborsOf m.row m.col,
    ¬ (inBounds n.1 n.2 = true ∧
        cellAt s.board n.1 n.2 = some (opponentOf (pieceOf p)))

end GatosCaes

-- ===========================================================================
-- Atari Go engine (src/src/core/game-engine/bot-strategies.ts, engine part)
-- ===========================================================================

namespace AtariGo

inductive ACell : Type
| empty
| black
| white
deriving DecidableEq, Repr

abbrev Board := List (List ACell)

structure AMove : Type where
  row : Int
  col : Int
  pass : Bool := false
deriving DecidableEq, Repr

structure AState : Type where
  board : Board
  currentPlayer : PlayerRole
  blackCaptures : Nat
  whiteCaptures : Nat
  lastMove : Option AMove
  winner : Option GameOutcome
  passCount : Nat
deriving DecidableEq, Repr

def boardSize : Nat := 9

def captureToWin : Nat := 1

/-- `board[r][c]`; `none` for out-of-range indices. -/
def cellAt (b : Board) (r c : Int) : Option ACell :=
  if r < 0 || c < 0 then none
  else (b[r.toNat]?).bind fun row => row[c.toNat]?

def inBounds (r c : Int) : Bool :=
  0 ≤ r && r < boardSize && 0 ≤ c && c < boardSize

def neighborsOf (r c : Int) : List (Int × Int) :=
  [(r - 1, c), (r + 1, c), (r, c - 1), (r, c + 1)]

def colorOf (p : PlayerRole) : ACell :=
  if p == .player1 then .black else .white

def oppColorOf (c : ACell) : ACell :=
  if c == .black then .white else .black

def createInitialState (startingPlayer : PlayerRole) : AState :=
  { board := List.replicate boardSize (List.replicate boardSize .empty)
    currentPlayer := startingPlayer
    blackCaptures := 0
    whiteCaptures := 0
    lastMove := none
    winner := none
    passCount := 0 }

/-- `board[row][col] = color` (validated in-range writes). -/
def setCell (b : Board) (r c : Int) (v : ACell) : Board :=
  if r < 0 || c < 0 then b
  else b.set r.toNat ((b.getD r.toNat []).set c.toNat v)

/-- iteration core of `getGroup`'s stack-based flood fill.  The stack top is
the list head (the source pushes `[r-1,c],[r+1,c],[r,c-1],[r,c+1]` and pops
from the end, so pushed neighbours appear here in reverse push order);
`fuel` bounds the iteration count, `groupFuel` always suffices. -/
def getGroupAux (b : Board) (color : Option ACell) :
    Nat → List (Int × Int) → List (Int × Int) → List (Int × Int) →
      List (Int × Int)
| 0, _, group, _ => group
| _ + 1, _, group, [] => group
| fuel + 1, visited, group, (r, c) :: stack =>
  if (r, c) ∈ visited then getGroupAux b color fuel visited group stack
  else if !inBounds r c then getGroupAux b color fuel visited group stack
  else if cellAt b r c ≠ color then getGroupAux b color fuel visited group stack
  else
    getGroupAux b color fuel ((r, c) :: visited) (group ++ [(r, c)])
      ((r, c + 1) :: (r, c - 1) :: (r + 1, c) :: (r - 1, c) :: stack)

/-- every loop iteration pops one entry and pushes four at most once per
newly visited on-board cell, so this fuel is never exhausted. -/
def groupFuel : Nat := 4 * boardSize * boardSize + 1

def getGroup (b : Board) (row col : Int) : List (Int × Int) :=
  let color := cellAt b row col
  if color == some .empty then []
  else getGroupAux b color groupFuel [] [] [(row, col)]

/-- the neighbour scan of `getAdjacentGroups`, threading the `seen` set. -/
def adjGroupsGo (b : Board) (color : ACell) :
    List (Int × Int) → List (Int × Int) → List (List (Int × Int))
| [], _ => []
| (r, c) :: rest, seen =>
  if !inBounds r c then adjGroupsGo b color rest seen
  else if cellAt b r c ≠ some color then adjGroupsGo b color rest seen
  else if (r, c) ∈ seen then adjGroupsGo b color rest seen
  else
    let group := getGroup b r c
    group :: adjGroupsGo b color rest (seen ++ group)

def getAdjacentGroups (b : Board) (row col : Int) (color : ACell) :
    List (List (Int × Int)) :=
  adjGroupsGo b color (neighborsOf row col) []

/-- one step of the liberty collection: add the empty in-bounds neighbours
of `p` that are not yet in the set. -/
def addLiberties (b : Board) (acc : List (Int × Int)) (p : Int × Int) :
    List (Int × Int) :=
  (neighborsOf p.1 p.2).foldl
    (fun acc n =>
      if inBounds n.1 n.2 && (cellAt b n.1 n.2 == some .empty) &&
          !(n ∈ acc) then acc ++ [n]
      else acc)
    acc

/-- `countLiberties`: size of the set of empty cells orthogonally adjacent
to the group. -/
def countLiberties (b : Board) (group : List (Int × Int)) : Nat :=
  (group.foldl (addLiberties b) []).length

def validateMove (s : AState) (m : AMove) (p : PlayerRole) : Bool :=
  if s.winner ≠ none then false
  else if s.currentPlayer ≠ p then false
  else if m.pass then true
  else if m.row < 0 || boardSize ≤ m.row || m.col < 0 || boardSize ≤ m.col then
    false
  else if cellAt s.board m.row m.col ≠ some .empty then false
  else
    let color := colorOf p
    let testBoard := setCell s.board m.row m.col color
    let opponent := oppColorOf color
    let wouldCapture := (getAdjacentGroups testBoard m.row m.col opponent).any
      fun g => countLiberties testBoard g == 0
    if wouldCapture then true
    else
      let ownGroup := getGroup testBoard m.row m.col
      decide (0 < countLiberties testBoard ownGroup)

/-- a 9x9 board, as `createInitialState` and `applyMove` maintain. -/
def WellFormed (b : Board) : Prop :=
  b.length = boardSize ∧ ∀ row ∈ b, row.length = boardSize

/-- C7 spec side: `q` is a stone of the group of `p` — same colour,
connected to `p` through orthogonally adjacent stones of that colour. -/
def SameColorConnected (b : Board) (col : ACell) (p q : Int × Int) : Prop :=
  Relation.ReflTransGen
    (fun x y =>
      y ∈ neighborsOf x.1 x.2 ∧ inBounds y.1 y.2 = true ∧
        cellAt b y.1 y.2 = some col)
    p q

/-- C7 spec side: the group of the stone at `p` has at least one liberty
(an empty cell orthogonally adjacent to one of its stones). -/
def GroupHasLiberty (b : Board) (col : ACell) (p : Int × Int) : Prop :=
  ∃ q, SameColorConnected b col p q ∧
    ∃ e ∈ neighborsOf q.1 q.2, inBounds e.1 e.2 = true ∧
      cellAt b e.1 e.2 = some .empty

/-- C7 spec side, from the specification's own words: cell empty, in
bounds, not terminal, correct turn, and either some orthogonally adjacent
opposing group is left with zero liberties by the placement, or the placed
stone's own group has a liberty after placement. -/
def LegalStoneSpec (s : AState) (m : AMove) (p : PlayerRole) : Prop :=
  s.winner = none ∧
  s.currentPlayer = p ∧
  (0 ≤ m.row ∧ m.row < 9 ∧ 0 ≤ m.col ∧ m.col < 9) ∧
  cellAt s.board m.row m.col = some .empty ∧
  ((∃ n ∈ neighborsOf m.row m.col,
      inBounds n.1 n.2 = true ∧
      cellAt (setCell s.board m.row m.col (colorOf p)) n.1 n.2 =
        some (oppColorOf (colorOf p)) ∧
      ¬ GroupHasLiberty (setCell s.board m.row m.col (colorOf p))
          (oppColorOf (colorOf p)) n) ∨
    GroupHasLiberty (setCell s.board m.row m.col (colorOf p)) (colorOf p)
      (m.row, m.col))

/-- concrete scenario: white in the corner `(0,0)`, black at `(1,0)`;
black playing `(0,1)` captures the corner stone. -/
def captureBoard : Board :=
  (ACell.white :: List.replicate 8 .empty) ::
    (ACell.black :: List.replicate 8 .empty) ::
      List.replicate 7 (List.replicate 9 .empty)

def captureState : AState :=
  { board := captureBoard
    currentPlayer := .player1
    blackCaptures := 0
    whiteCaptures := 0
    lastMove := none
    winner := none
    passCount := 0 }

def captureMove : AMove :=
  { row := 0, col := 1, pass := false }

end AtariGo

-- ===========================================================================
-- Produto engine (src/src/core/game-engine/produto.ts)
-- ===========================================================================

namespace Produto

inductive PCell : Type
| empty
| black
| white
deriving DecidableEq, Repr

/-- the JS `Map` from `"q,r"` keys to cells, as an association list in
insertion order; `mapSet` updates in place or appends like `Map.set`. -/
abbrev PBoard := List ((Int × Int) × PCell)

structure PMove : Type where
  placements : List ((Int × Int) × PCell)
deriving DecidableEq, Repr

structure PState : Type where
  board : PBoard
  currentPlayer : PlayerRole
  lastMove : Option PMove
  winner : Option GameOutcome
  moveCount : Nat
  blackPiecesPlaced : Nat
  whitePiecesPlaced : Nat
deriving DecidableEq, Repr

def hexRadius : Nat := 4

def totalCells : Nat := 61

/-- `generateHexCoords`: axial coordinates `q, r ∈ [-4, 4]` with
`|q + r| ≤ 4`, in the source's loop order. -/
def generateHexCoords : List (Int × Int) :=
  (List.range 9).flatMap fun qi =>
    (List.range 9).filterMap fun ri =>
      let q : Int := (qi : Int) - 4
      let r : Int := (ri : Int) - 4
      if (q + r).natAbs ≤ hexRadius then some (q, r) else none

def mapHas (b : PBoard) (k : Int × Int) : Bool :=
  b.any fun e => e.1 == k

def mapGet (b : PBoard) (k : Int × Int) : Option PCell :=
  (b.find? fun e => e.1 == k).map fun e => e.2

def mapSet : PBoard → (Int × Int) → PCell → PBoard
| [], k, v => [(k, v)]
| (k', v') :: rest, k, v =>
  if k' = k then (k', v) :: rest else (k', v') :: mapSet rest k v

def createInitialState (startingPlayer : PlayerRole) : PState :=
  { board := generateHexCoords.map fun c => (c, PCell.empty)
    currentPlayer := startingPlayer
    lastMove := none
    winner := none
    moveCount := 0
    blackPiecesPlaced := 0
    whitePiecesPlaced := 0 }

/-- the placement-checking loop of `validateMove`, threading `usedCoords`. -/
def placementsOk (b : PBoard) :
    List ((Int × Int) × PCell) → List (Int × Int) → Bool
| [], _ => true
| (coord, color) :: rest, used =>
  if !mapHas b coord then false
  else if mapGet b coord ≠ some .empty then false
  else if used.contains coord then false
  else if color != PCell.black && color != PCell.white then false
  else placementsOk b rest (coord :: used)

def validateMove (s : PState) (m : PMove) (p : PlayerRole) : Bool :=
  if s.winner ≠ none then false
  else if s.currentPlayer ≠ p then false
  else if m.placements.length ≠ (if s.moveCount == 0 then 1 else 2) then false
  else placementsOk s.board m.placements []

/-- the placing loop of `applyMove`: sets each placement and increments the
per-colour placed counters. -/
def placeAll : PBoard → Nat → Nat → List ((Int × Int) × PCell) →
    PBoard × Nat × Nat
| b, bl, wh, [] => (b, bl, wh)
| b, bl, wh, (coord, color) :: rest =>
  if color == PCell.black then placeAll (mapSet b coord color) (bl + 1) wh rest
  else placeAll (mapSet b coord color) bl (wh + 1) rest

def countEmptyCells (b : PBoard) : Nat :=
  (b.filter fun e => e.2 == PCell.empty).length

def hexNeighbors (c : Int × Int) : List (Int × Int) :=
  [(c.1 + 1, c.2), (c.1 + 1, c.2 - 1), (c.1, c.2 - 1),
    (c.1 - 1, c.2), (c.1 - 1, c.2 + 1), (c.1, c.2 + 1)]

/-- the BFS loop of `findGroups`; head of `queue` is the front (`shift`),
enqueued neighbours are appended; returns the group size and the grown
visited set.  `fuel` bounds the iteration count; `bfsFuel` suffices since
every dequeued cell was first marked visited and at most 61 cells exist. -/
def bfsVisit (b : PBoard) (color : PCell) :
    Nat → List (Int × Int) → List (Int × Int) → Nat → Nat × List (Int × Int)
| 0, _, visited, size => (size, visited)
| _ + 1, [], visited, size => (size, visited)
| fuel + 1, cur :: queue, visited, size =>
  let next := (hexNeighbors cur).foldl
    (fun (acc : List (Int × Int) × List (Int × Int)) n =>
      if acc.2.contains n then acc
      else if mapGet b n != some color then acc
      else (acc.1 ++ [n], n :: acc.2))
    (queue, visited)
  bfsVisit b color fuel next.1 next.2 (size + 1)

def bfsFuel : Nat := 6 * totalCells + 1

/-- `findGroups`: scan the board entries in order, flood-filling each
unvisited stone of the colour and collecting group sizes. -/
def findGroups (b : PBoard) (color : PCell) : List Nat :=
  (b.foldl
    (fun (acc : List (Int × Int) × List Nat) e =>
      if e.2 != color then acc
      else if acc.1.contains e.1 then acc
      else
        let res := bfsVisit b color bfsFuel [e.1] (e.1 :: acc.1) 0
        (res.2, acc.2 ++ [res.1]))
    ([], [])).2

def insertDesc (x : Nat) : List Nat → List Nat
| [] => [x]
| y :: ys => if y < x then x :: y :: ys else y :: insertDesc x ys

/-- `groups.sort((a, b) => b - a)`: descending sort (ties are equal values,
so insertion sort returns the same list as any comparator sort). -/
def sortDesc : List Nat → List Nat
| [] => []
| x :: xs => insertDesc x (sortDesc xs)

def calculateScore (b : PBoard) (color : PCell) : Nat :=
  let groups := findGroups b color
  if groups.length < 2 then 0
  else
    let sorted := sortDesc groups
    sorted.getD 0 0 * sorted.getD 1 0

/-- the winner computation shared verbatim by the `emptyCells === 0` and
`emptyCells === 1` branches of `applyMove`: higher product score wins, ties
go to the colour with fewer placed pieces, equal counts draw. -/
def decideWinner (b : PBoard) (bl wh : Nat) : Option GameOutcome :=
  let blackScore := calculateScore b .black
  let whiteScore := calculateScore b .white
  if whiteScore < blackScore then some (.winBy .player1)
  else if blackScore < whiteScore then some (.winBy .player2)
  else if bl < wh then some (.winBy .player1)
  else if wh < bl then some (.winBy .player2)
  else some .draw

def applyMove (s : PState) (m : PMove) (p : PlayerRole) : PState :=
  let res := placeAll s.board s.blackPiecesPlaced s.whitePiecesPlaced
    m.placements
  let s1 : PState :=
    { board := res.1
      currentPlayer := s.currentPlayer
      lastMove := some m
      winner := s.winner
      moveCount := s.moveCount + 1
      blackPiecesPlaced := res.2.1
      whitePiecesPlaced := res.2.2 }
  let emptyCells := countEmptyCells s1.board
  let s2 :=
    if emptyCells == 0 then
      { s1 with winner := (decideWinner s1.board s1.blackPiecesPlaced
          s1.whitePiecesPlaced) }
    else if emptyCells == 1 && s1.moveCount > 0 then
      { s1 with winner := (decideWinner s1.board s1.blackPiecesPlaced
          s1.whitePiecesPlaced) }
    else s1
  if s2.winner == none then
    { s2 with currentPlayer := if p == .player1 then .player2 else .player1 }
  else s2

def isGameOver (s : PState) : Bool :=
  s.winner ≠ none

def getWinner (s : PState) : Option GameOutcome :=
  s.winner

/-- the states produced by the engine: the initial state and anything an
accepted (validated) move leads to. -/
inductive Reachable : PState → Prop
| init (p : PlayerRole) : Reachable (createInitialState p)
| step (s : PState) (m : PMove) (p : PlayerRole) (hs : Reachable s)
    (hv : validateMove s m p = true) : Reachable (applyMove s m p)

/-- number of occupied cells, the quantity the claim equates with the sum
of the two placed counters. -/
def countNonEmpty (b : PBoard) : Nat :=
  (b.filter fun e => e.2 != PCell.empty).length

/-- submitting through the session layer: each move is validated for the
player whose turn it is, then applied. -/
def stepMove (s : PState) (m : PMove) : Option PState :=
  if validateMove s m s.currentPlayer then some (applyMove s m s.currentPlayer)
  else none

def runMoves : PState → List PMove → Option PState
| s, [] => some s
| s, m :: ms =>
  match stepMove s m with
  | some s' => runMoves s' ms
  | none => none

/-- the witness game: black fills the whole board, first move one piece,
then two per move. -/
def pairUp : List (Int × Int) → List PMove
| a :: b :: rest => ⟨[(a, PCell.black), (b, PCell.black)]⟩ :: pairUp rest
| _ => []

def witnessMoves : List PMove :=
  match generateHexCoords with
  | [] => []
  | c :: rest => ⟨[(c, PCell.black)]⟩ :: pairUp rest

def witnessFinal : PState :=
  (runMoves (createInitialState .player1) witnessMoves).getD
    (createInitialState .player1)

end Produto

-- ===========================================================================
-- Game session manager (src, GameSessionManager)
-- ===========================================================================

namespace GameSession

/-- the uniform engine contract of types.ts; `submitMove` receives the
engine for the session's game (`getGameEngine` cannot fail here, so the
source's `engine not found` error has no counterpart). -/
structure EngineI (S M : Type) where
  createInitialState : PlayerRole → S
  validateMove : S → M → PlayerRole → Bool
  applyMove : S → M → PlayerRole → S
  isGameOver : S → Bool
  getWinner : S → Option GameOutcome
  getCurrentTurn : S → PlayerRole

/-- a session; timestamps of the source are dropped, the moves log keeps
(playerId, move). -/
structure Session (S M : Type) : Type where
  id : Nat
  tournamentId : Nat
  matchId : Nat
  gameNumber : Nat
  state : S
  currentTurn : PlayerRole
  isFinished : Bool
  winnerId : Option Nat
  moves : List (Nat × M)

inductive SubmitError : Type
| sessionNotFound
| gameFinished
| notYourTurn
| invalidMove
deriving DecidableEq, Repr

inductive SubmitOutcome : Type
| ok (gameOver : Bool) (winner : Option GameOutcome)
| err (e : SubmitError)
deriving DecidableEq, Repr

/-- the session store, a JS `Map` keyed by session id. -/
abbrev Sessions (S M : Type) := List (Nat × Session S M)

def sessGet {S M : Type} (ss : Sessions S M) (sid : Nat) :
    Option (Session S M) :=
  (ss.find? fun e => e.1 == sid).map fun e => e.2

def sessSet {S M : Type} : Sessions S M → Nat → Session S M → Sessions S M
| [], sid, s => [(sid, s)]
| (k, v) :: rest, sid, s =>
  if k = sid then (k, s) :: rest else (k, v) :: sessSet rest sid s

def submitMove {S M : Type} (e : EngineI S M) (ss : Sessions S M) (sid : Nat)
    (playerId : Nat) (playerRole : PlayerRole) (move : M) :
    SubmitOutcome × Sessions S M :=
  match sessGet ss sid with
  | none => (.err .sessionNotFound, ss)
  | some s =>
    if s.isFinished then (.err .gameFinished, ss)
    else if s.currentTurn ≠ playerRole then (.err .notYourTurn, ss)
    else if !e.validateMove s.state move playerRole then
      (.err .invalidMove, ss)
    else
      let st := e.applyMove s.state move playerRole
      let s1 : Session S M :=
        { s with
          state := st
          currentTurn := e.getCurrentTurn st
          moves := s.moves ++ [(playerId, move)] }
      if e.isGameOver st then
        (.ok true (e.getWinner st), sessSet ss sid { s1 with isFinished := true })
      else
        (.ok false none, sessSet ss sid s1)

/-- trivial engine for the witness. -/
def unitEngine : EngineI Unit Unit :=
  { createInitialState := fun _ => ()
    validateMove := fun _ _ _ => false
    applyMove := fun s _ _ => s
    isGameOver := fun _ => false
    getWinner := fun _ => none
    getCurrentTurn := fun _ => .player1 }

def unitSession : Session Unit Unit :=
  { id := 1
    tournamentId := 0
    matchId := 0
    gameNumber := 1
    state := ()
    currentTurn := .player1
    isFinished := false
    winnerId := none
    moves := [] }

end GameSession

-- ===========================================================================
-- Tournament manager (src, TournamentManager) and bracket helpers
-- (src, double-elimination.ts).  String ids (`generateId`) are modelled as
-- naturals; `Date` timestamps are dropped.  The manager's lookup of the
-- tournament by id is modelled by passing the tournament itself, and
-- `generateId` by passing the fresh id as an argument.  In-place mutation of
-- a match found by `getMatch` is modelled by rewriting every stored slot
-- holding that id (`updateMatch`): identical to the source whenever ids are
-- unique, which `generateId` guarantees.  Object-identity tests
-- (`match === tournament.grandFinal`) are modelled as id equality, sound
-- under the same uniqueness.
-- ===========================================================================

namespace Tournament

inductive BracketType : Type
| winners
| losers
deriving DecidableEq, Repr

inductive MatchPhase : Type
| waiting
| playing
| finished
deriving DecidableEq, Repr

inductive TournamentPhase : Type
| registration
| running
| finished
deriving DecidableEq, Repr

structure MatchScore : Type where
  player1Wins : Nat
  player2Wins : Nat
deriving DecidableEq, Repr

structure Match : Type where
  id : Nat
  round : Nat
  bracket : BracketType
  player1Id : Option Nat
  player2Id : Option Nat
  score : MatchScore
  bestOf : Nat
  currentGame : Nat
  whoStartsCurrentGame : Option PlayerRole
  phase : MatchPhase
  winnerId : Option Nat
  loserId : Option Nat
  winnerGoesToMatchId : Option Nat := none
  loserGoesToMatchId : Option Nat := none
  sourceMatch1Id : Option Nat := none
  sourceMatch2Id : Option Nat := none
deriving DecidableEq, Repr

structure Player : Type where
  id : Nat
  name : Nat
  classId : Option Nat
  isOnline : Bool
  connectionId : Option Nat := none
deriving DecidableEq, Repr

structure Tournament : Type where
  id : Nat
  gameId : Nat
  phase : TournamentPhase
  players : List (Nat × Player)
  winnersMatches : List Match
  losersMatches : List Match
  grandFinal : Option Match
  grandFinalReset : Option Match
  championId : Option Nat
deriving DecidableEq, Repr

/-- `tournament.players.get(pid)` on the JS `Map`. -/
def playersGet (ps : List (Nat × Player)) (pid : Nat) : Option Player :=
  (ps.find? fun e => e.1 == pid).map fun e => e.2

/-- `tournament.players.set(pid, p)`: overwrite in place, else append. -/
def playersSet : List (Nat × Player) → Nat → Player → List (Nat × Player)
| [], pid, p => [(pid, p)]
| (k, v) :: rest, pid, p =>
  if k = pid then (k, p) :: rest else (k, v) :: playersSet rest pid p

/-- the fresh `Player` object `addPlayer` creates. -/
def freshPlayer (newId name : Nat) (classId : Option Nat) : Player :=
  { id := newId, name := name, classId := classId, isOnline := true }

/-- `TournamentManager.addPlayer`, with the tournament passed directly and
`generateId('player')` passed as `newId`. -/
def addPlayer (t : Tournament) (name : Nat) (classId : Option Nat)
    (existingPlayerId : Option Nat) (newId : Nat) :
    Option Player × Tournament :=
  if t.phase ≠ .registration then (none, t)
  else
    match existingPlayerId with
    | some pid =>
      match playersGet t.players pid with
      | some p =>
        (some { p with isOnline := true },
          { t with players := playersSet t.players pid { p with isOnline := true } })
      | none =>
        (some (freshPlayer newId name classId),
          { t with players := playersSet t.players newId (freshPlayer newId name classId) })
    | none =>
      (some (freshPlayer newId name classId),
        { t with players := playersSet t.players newId (freshPlayer newId name classId) })

/-- `getAllMatches` / the array built inside `getMatch`: winners, losers,
grand final, grand-final reset, in that order, skipping null slots. -/
def allMatches (t : Tournament) : List Match :=
  t.winnersMatches ++ t.losersMatches ++ t.grandFinal.toList ++
    t.grandFinalReset.toList

/-- `TournamentManager.getMatch`. -/
def getMatch (t : Tournament) (matchId : Nat) : Option Match :=
  (allMatches t).find? fun m => m.id == matchId

/-- write-back of an in-place mutation of the match with id `matchId`. -/
def updateMatch (t : Tournament) (matchId : Nat) (f : Match → Match) :
    Tournament :=
  { t with
    winnersMatches := t.winnersMatches.map fun m => if m.id = matchId then f m else m
    losersMatches := t.losersMatches.map fun m => if m.id = matchId then f m else m
    grandFinal := t.grandFinal.map fun m => if m.id = matchId then f m else m
    grandFinalReset := t.grandFinalReset.map fun m => if m.id = matchId then f m else m }

/-- the slot-filling step shared by `advanceWinner` and `advanceLoser`:
fill `player1Id` first, else `player2Id`, else do nothing. -/
def advanceSlot (m : Match) (playerId : Nat) : Match :=
  if m.player1Id = none then { m with player1Id := some playerId }
  else if m.player2Id = none then { m with player2Id := some playerId }
  else m

/-- `advanceWinner` (double-elimination.ts). -/
def advanceWinner (t : Tournament) (playerId nextMatchId : Nat) : Tournament :=
  match getMatch t nextMatchId with
  | none => t
  | some _ => updateMatch t nextMatchId fun m => advanceSlot m playerId

/-- `advanceLoser` (double-elimination.ts); its body repeats `advanceWinner`. -/
def advanceLoser (t : Tournament) (playerId nextMatchId : Nat) : Tournament :=
  match getMatch t nextMatchId with
  | none => t
  | some _ => updateMatch t nextMatchId fun m => advanceSlot m playerId

/-- `TournamentManager.startMatch`. -/
def startMatch (t : Tournament) (matchId : Nat) : Option Match × Tournament :=
  match getMatch t matchId with
  | none => (none, t)
  | some m =>
    if m.phase ≠ .waiting then (none, t)
    else if m.player1Id = none ∨ m.player2Id = none then (none, t)
    else
      (some { m with
                phase := .playing
                currentGame := 1
                whoStartsCurrentGame := some .player1 },
        updateMatch t matchId fun _ =>
          { m with
            phase := .playing
            currentGame := 1
            whoStartsCurrentGame := some .player1 })

/-- the score-update block of `recordGameResult`; JS `===` on
`string | null` is `Option` equality. -/
def updatedScore (m : Match) (winnerId : Option Nat) : MatchScore :=
  if winnerId = m.player1Id then
    { m.score with player1Wins := m.score.player1Wins + 1 }
  else if winnerId = m.player2Id then
    { m.score with player2Wins := m.score.player2Wins + 1 }
  else m.score

/-- `Math.ceil(bestOf / 2)` for a natural `bestOf`. -/
def winsNeeded (m : Match) : Nat := (m.bestOf + 1) / 2

/-- the mutated match when `recordGameResult` finds the match finished. -/
def finishedMatch (m : Match) (winnerId : Option Nat) : Match :=
  if winsNeeded m ≤ (updatedScore m winnerId).player1Wins then
    { m with
      score := updatedScore m winnerId
      winnerId := m.player1Id
      loserId := m.player2Id
      phase := .finished }
  else
    { m with
      score := updatedScore m winnerId
      winnerId := m.player2Id
      loserId := m.player1Id
      phase := .finished }

/-- the mutated match when the match continues: next game, flipped starter
(`whoStartsCurrentGame === 'player1' ? 'player2' : 'player1'`). -/
def flipStart : Option PlayerRole → Option PlayerRole
| some .player1 => some .player2
| _ => some .player1

def nextGameMatch (m : Match) (winnerId : Option Nat) : Match :=
  { m with
    score := updatedScore m winnerId
    currentGame := m.currentGame + 1
    whoStartsCurrentGame := flipStart m.whoStartsCurrentGame }

/-- `if (match.winnerId && match.winnerGoesToMatchId) advanceWinner(...)`. -/
def advanceW (t : Tournament) (m1 : Match) : Tournament :=
  match m1.winnerId, m1.winnerGoesToMatchId with
  | some w, some g => advanceWinner t w g
  | _, _ => t

/-- `if (match.loserId && match.loserGoesToMatchId) advanceLoser(...)`. -/
def advanceL (t : Tournament) (m1 : Match) : Tournament :=
  match m1.loserId, m1.loserGoesToMatchId with
  | some l, some g => advanceLoser t l g
  | _, _ => t

/-- `match === tournament.grandFinal`, as id equality. -/
def isGF (t : Tournament) (matchId : Nat) : Bool :=
  match t.grandFinal with
  | some gf => gf.id == matchId
  | none => false

/-- `match === tournament.grandFinalReset`, as id equality. -/
def isGFReset (t : Tournament) (matchId : Nat) : Bool :=
  match t.grandFinalReset with
  | some gfr => gfr.id == matchId
  | none => false

/-- the reset match populated with the grand final's two players. -/
def populatedReset (gfr m1 : Match) : Match :=
  { gfr with player1Id := m1.player1Id, player2Id := m1.player2Id }

/-- the grand-final / grand-final-reset block of `recordGameResult`;
returns the tournament and the `tournamentFinished` flag. -/
def grandFinalStep (t : Tournament) (m1 : Match) (matchId : Nat) :
    Tournament × Bool :=
  if isGF t matchId then
    if m1.winnerId = m1.player1Id then
      ({ t with championId := m1.winnerId }, true)
    else
      match t.grandFinalReset with
      | some gfr =>
        ({ t with grandFinalReset := some (populatedReset gfr m1) }, false)
      | none => (t, false)
  else if isGFReset t matchId then
    ({ t with championId := m1.winnerId }, true)
  else (t, false)

/-- `if (tournament.championId) tournament.phase = 'finished'`. -/
def championStep (t : Tournament) : Tournament :=
  if t.championId ≠ none then { t with phase := .finished } else t

/-- the `matchFinished` branch of `recordGameResult`: write the finished
match back, advance winner and loser, run the grand-final block, then the
champion check. -/
def recordFinished (t : Tournament) (matchId : Nat) (m1 : Match) :
    (Bool × Bool) × Tournament :=
  match grandFinalStep (advanceL (advanceW (updateMatch t matchId fun _ => m1) m1) m1) m1 matchId with
  | (t4, tf) => ((true, tf), championStep t4)

/-- `TournamentManager.recordGameResult` for one tournament; returns
`(matchFinished, tournamentFinished)` and the updated tournament.  The
source never reads `gameNumber`. -/
def recordGameResult (t : Tournament) (matchId gameNumber : Nat)
    (winnerId : Option Nat) : (Bool × Bool) × Tournament :=
  match getMatch t matchId with
  | none => ((false, false), t)
  | some m =>
    if winsNeeded m ≤ (updatedScore m winnerId).player1Wins ∨
        winsNeeded m ≤ (updatedScore m winnerId).player2Wins then
      recordFinished t matchId (finishedMatch m winnerId)
    else
      ((false, false), updateMatch t matchId fun _ => nextGameMatch m winnerId)

-- Derived forms used to state the sequence properties: a tournament whose
-- only match is `m`, and the per-match transition `recordGameResult`
-- performs on it.

def singleMatchT (m : Match) : Tournament :=
  { id := 0
    gameId := 0
    phase := .running
    players := []
    winnersMatches := [m]
    losersMatches := []
    grandFinal := none
    grandFinalReset := none
    championId := none }

/-- what one `recordGameResult` call does to the match itself. -/
def recordStep (m : Match) (winnerId : Option Nat) : Match :=
  if winsNeeded m ≤ (updatedScore m winnerId).player1Wins ∨
      winsNeeded m ≤ (updatedScore m winnerId).player2Wins then
    finishedMatch m winnerId
  else nextGameMatch m winnerId

/-- the match with `m`'s id after a sequence of `recordGameResult` calls on
the single-match tournament. -/
def matchAfter (m : Match) (results : List (Option Nat)) : Option Match :=
  getMatch
    (results.foldl (fun t r => (recordGameResult t m.id 1 r).2) (singleMatchT m))
    m.id

/-- a match as `startMatch` leaves it: playing, game 1, player1 to start,
scores 0-0 and best-of-3 from `createMatch`, both slots filled with distinct
players, and bracket links (if any) pointing to other matches. -/
def StartedMatch (m : Match) (w1 w2 : Nat) : Prop :=
  m.phase = .playing ∧ m.score = ⟨0, 0⟩ ∧ m.currentGame = 1 ∧ m.bestOf = 3 ∧
  m.whoStartsCurrentGame = some .player1 ∧ m.player1Id = some w1 ∧
  m.player2Id = some w2 ∧ w1 ≠ w2 ∧ m.winnerGoesToMatchId ≠ some m.id ∧
  m.loserGoesToMatchId ≠ some m.id

/-- the best-of-3 bookkeeping `recordGameResult` maintains on a started
match between two distinct players (decisive games only). -/
def C4Inv (mid w1 w2 : Nat) (m : Match) : Prop :=
  m.id = mid ∧ m.bestOf = 3 ∧ m.player1Id = some w1 ∧ m.player2Id = some w2 ∧
  m.winnerGoesToMatchId ≠ some m.id ∧ m.loserGoesToMatchId ≠ some m.id ∧
  (m.phase = .finished ↔ 2 ≤ m.score.player1Wins ∨ 2 ≤ m.score.player2Wins) ∧
  (m.phase ≠ .finished →
    m.score.player1Wins ≤ 1 ∧ m.score.player2Wins ≤ 1 ∧
    m.currentGame = 1 + m.score.player1Wins + m.score.player2Wins)

/-- the starting-role alternation `recordGameResult` maintains. -/
def C9Inv (mid : Nat) (m : Match) : Prop :=
  m.id = mid ∧ m.winnerGoesToMatchId ≠ some m.id ∧
  m.loserGoesToMatchId ≠ some m.id ∧
  (m.whoStartsCurrentGame = some .player1 ↔ m.currentGame % 2 = 1) ∧
  (m.whoStartsCurrentGame = some .player1 ∨
    m.whoStartsCurrentGame = some .player2)

/-- the grand final as the bracket construction and advancement deliver it:
stored in the `grandFinal` slot, id distinct from every other stored match,
both slots filled with distinct players, best-of-3, no outgoing links, and
no champion yet. -/
def GFSetting (t : Tournament) (gf : Match) (w l : Nat) : Prop :=
  t.grandFinal = some gf ∧
  (∀ m ∈ t.winnersMatches, m.id ≠ gf.id) ∧
  (∀ m ∈ t.losersMatches, m.id ≠ gf.id) ∧
  (∀ m ∈ t.grandFinalReset.toList, m.id ≠ gf.id) ∧
  gf.player1Id = some w ∧ gf.player2Id = some l ∧ w ≠ l ∧ gf.bestOf = 3 ∧
  gf.winnerGoesToMatchId = none ∧ gf.loserGoesToMatchId = none ∧
  t.championId = none

/-- the grand-final reset, analogously. -/
def ResetSetting (t : Tournament) (gfr : Match) (a b : Nat) : Prop :=
  t.grandFinalReset = some gfr ∧
  (∀ m ∈ t.winnersMatches, m.id ≠ gfr.id) ∧
  (∀ m ∈ t.losersMatches, m.id ≠ gfr.id) ∧
  (∀ m ∈ t.grandFinal.toList, m.id ≠ gfr.id) ∧
  gfr.player1Id = some a ∧ gfr.player2Id = some b ∧ a ≠ b ∧ gfr.bestOf = 3 ∧
  gfr.winnerGoesToMatchId = none ∧ gfr.loserGoesToMatchId = none ∧
  t.championId = none

-- concrete data for the grand-final theorems
def gfW : Match :=
  { id := 10
    round := 3
    bracket := .winners
    player1Id := some 1
    player2Id := some 2
    score := ⟨1, 0⟩
    bestOf := 3
    currentGame := 2
    whoStartsCurrentGame := some .player2
    phase := .playing
    winnerId := none
    loserId := none }

def gfrW : Match :=
  { gfW with
    id := 11
    round := 4
    player1Id := none
    player2Id := none
    score := ⟨0, 0⟩
    currentGame := 0
    whoStartsCurrentGame := none
    phase := .waiting }

def tW : Tournament :=
  { id := 0
    gameId := 0
    phase := .running
    players := []
    winnersMatches := []
    losersMatches := []
    grandFinal := some gfW
    grandFinalReset := some gfrW
    championId := none }

-- concrete data for the match-sequence theorems
def c4M : Match :=
  { id := 1
    round := 1
    bracket := .winners
    player1Id := some 1
    player2Id := some 2
    score := ⟨0, 0⟩
    bestOf := 3
    currentGame := 1
    whoStartsCurrentGame := some .player1
    phase := .playing
    winnerId := none
    loserId := none }

def c9M : Match :=
  { c4M with phase := .waiting, currentGame := 0, whoStartsCurrentGame := none }

def startedC9 : Match :=
  { c9M with
    phase := .playing
    currentGame := 1
    whoStartsCurrentGame := some .player1 }

-- concrete data for the addPlayer theorems
def c3Player : Player :=
  { id := 7, name := 3, classId := none, isOnline := false }

def c3T : Tournament :=
  { id := 1
    gameId := 0
    phase := .running
    players := [(7, c3Player)]
    winnersMatches := []
    losersMatches := []
    grandFinal := none
    grandFinalReset := none
    championId := none }

def c3Reg : Tournament :=
  { c3T with phase := .registration }

-- ---------------------------------------------------------------------------
-- createDoubleEliminationBracket (double-elimination.ts).  `shuffleArray` is
-- a permutation, so the input list here stands for the shuffled player order
-- and theorems quantify over it.  `generateId` counters are modelled by a
-- running natural counter; the grand final and reset take the two ids after
-- the last match id.  JS indexing `xs[i]` on possibly-missing entries is
-- `getD`/`[i]?`; `Math.ceil(x / 2)` on naturals is `(x + 1) / 2`;
-- `Math.pow(2, Math.ceil(Math.log2 n))` is `2 ^ ceilLog2 n`.
-- ---------------------------------------------------------------------------

/-- the least `k` with `n ≤ 2 ^ k` (`Math.ceil(Math.log2 n)` for `n ≥ 1`). -/
def ceilLog2 (n : Nat) : Nat :=
  ((List.range (n + 1)).find? fun k => n ≤ 2 ^ k).getD n

def bracketSize (n : Nat) : Nat := 2 ^ ceilLog2 n

def numRoundsWinners (n : Nat) : Nat := ceilLog2 (bracketSize n)

/-- `createMatch` (double-elimination.ts); both arms of the source's phase
conditional are `'waiting'`. -/
def createMatch (mid round : Nat) (bracket : BracketType)
    (player1Id player2Id : Option Nat) : Match :=
  { id := mid
    round := round
    bracket := bracket
    player1Id := player1Id
    player2Id := player2Id
    score := ⟨0, 0⟩
    bestOf := 3
    currentGame := 0
    whoStartsCurrentGame := none
    phase := .waiting
    winnerId := none
    loserId := none }

def defaultMatch : Match := createMatch 0 0 .winners none none

/-- winners round 1, match `i`: seeded players, byes finished on the spot. -/
def round1Match (players : List Nat) (i : Nat) : Match :=
  if (players[2 * i]?).isSome ∧ players[2 * i + 1]? = none then
    { createMatch i 1 .winners players[2 * i]? players[2 * i + 1]? with
      winnerId := players[2 * i]?, phase := .finished }
  else if players[2 * i]? = none ∧ (players[2 * i + 1]?).isSome then
    { createMatch i 1 .winners players[2 * i]? players[2 * i + 1]? with
      winnerId := players[2 * i + 1]?, phase := .finished }
  else createMatch i 1 .winners players[2 * i]? players[2 * i + 1]?

def winnersRound1 (players : List Nat) : List Match :=
  (List.range (bracketSize players.length / 2)).map (round1Match players)

/-- apply `f i m` to each element, `i` counting from `j`. -/
def mapIdxFrom (f : Nat → Match → Match) : Nat → List Match → List Match
| _, [] => []
| j, m :: rest => f j m :: mapIdxFrom f (j + 1) rest

/-- rewrite the `i`-th round of a by-round list in place. -/
def modifyNth (f : List Match → List Match) : Nat → List (List Match) → List (List Match)
| _, [] => []
| 0, r :: rest => f r :: rest
| n + 1, r :: rest => r :: modifyNth f n rest

/-- the winner a later-round slot inherits from a finished source (a bye). -/
def byeWinner (m : Match) : Option Nat :=
  if m.phase = .finished ∧ m.winnerId.isSome then m.winnerId else none

/-- match `i` of a later winners round `r`, built over the previous round. -/
def upMatch (prev : List Match) (r c i : Nat) : Match :=
  { createMatch (c + i) r .winners
      (byeWinner (prev.getD (2 * i) defaultMatch))
      (byeWinner (prev.getD (2 * i + 1) defaultMatch)) with
    sourceMatch1Id := some (prev.getD (2 * i) defaultMatch).id
    sourceMatch2Id := some (prev.getD (2 * i + 1) defaultMatch).id }

def newWinnersRound (prev : List Match) (r c : Nat) : List Match :=
  (List.range (prev.length / 2)).map (upMatch prev r c)

/-- `sourceMatch.winnerGoesToMatchId = match.id` for both sources of each
new match: source `j` feeds new match `j / 2`. -/
def linkWinnerPair (c k : Nat) (round : List Match) : List Match :=
  mapIdxFrom
    (fun j m =>
      if j / 2 < k then { m with winnerGoesToMatchId := some (c + j / 2) } else m)
    0 round

/-- subsequent winners rounds, building down from `revRounds` (most recent
round first) with `count` rounds still to create. -/
def buildWinners : Nat → List (List Match) → Nat → Nat →
    List (List Match) × Nat
| 0, revRounds, c, _ => (revRounds, c)
| _ + 1, [], c, _ => ([], c)
| count + 1, prev :: older, c, r =>
  buildWinners count
    (newWinnersRound prev r c :: linkWinnerPair c (prev.length / 2) prev :: older)
    (c + prev.length / 2) (r + 1)

/-- the winners bracket by round (forward order) and the next free id. -/
def winnersStage (players : List Nat) : List (List Match) × Nat :=
  match buildWinners (numRoundsWinners players.length - 1)
      [winnersRound1 players] (bracketSize players.length / 2) 2 with
  | (rev, c) => (rev.reverse, c)

/-- losers round 1 links: winners-round-1 match `j` drops its loser into
losers match `j / 2`. -/
def linkLoserDrop1 (c k : Nat) (round : List Match) : List Match :=
  mapIdxFrom
    (fun j m =>
      if j / 2 < k then { m with loserGoesToMatchId := some (c + j / 2) } else m)
    0 round

/-- later dropout links: winners match `j` drops its loser into losers
match `j` of the new round. -/
def linkLoserDropLater (c k : Nat) (round : List Match) : List Match :=
  mapIdxFrom
    (fun j m =>
      if j < k then { m with loserGoesToMatchId := some (c + j) } else m)
    0 round

/-- prior losers round `j` sends its winner on to new losers match `j`. -/
def linkWinnerSame (c k : Nat) (round : List Match) : List Match :=
  mapIdxFrom
    (fun j m =>
      if j < k then { m with winnerGoesToMatchId := some (c + j) } else m)
    0 round

def losersRoundMatches (c lRound k : Nat) : List Match :=
  (List.range k).map fun i => createMatch (c + i) lRound .losers none none

/-- `Math.ceil(droppingMatches.length / 2)` for the dropout round. -/
def dropCount (wbr : List (List Match)) (lRound : Nat) : Nat :=
  ((wbr.getD ((lRound + 1) / 2 - 1) []).length + 1) / 2

/-- `Math.ceil(prevLosersRound.length / 2)` for the elimination round. -/
def elimCount (lbr : List (List Match)) (lRound : Nat) : Nat :=
  ((lbr.getD (lRound - 2) []).length + 1) / 2

/-- one iteration of the losers-bracket loop at round `lRound`. -/
def losersIter :
    List (List Match) × List (List Match) × Nat → Nat →
    List (List Match) × List (List Match) × Nat
| (wbr, lbr, c), lRound =>
  if lRound % 2 = 1 then
    if (lRound + 1) / 2 ≤ wbr.length then
      if lRound = 1 then
        (modifyNth (linkLoserDrop1 c (dropCount wbr lRound))
            ((lRound + 1) / 2 - 1) wbr,
          lbr ++ [losersRoundMatches c lRound (dropCount wbr lRound)],
          c + dropCount wbr lRound)
      else
        (modifyNth (linkLoserDropLater c (dropCount wbr lRound))
            ((lRound + 1) / 2 - 1) wbr,
          modifyNth (linkWinnerSame c (dropCount wbr lRound)) (lRound - 2)
              lbr ++
            [losersRoundMatches c lRound (dropCount wbr lRound)],
          c + dropCount wbr lRound)
    else (wbr, lbr ++ [[]], c)
  else
    (wbr,
      modifyNth (linkWinnerPair c (elimCount lbr lRound)) (lRound - 2) lbr ++
        [losersRoundMatches c lRound (elimCount lbr lRound)],
      c + elimCount lbr lRound)

def losersStage (wbr : List (List Match)) (c numLR : Nat) :
    List (List Match) × List (List Match) × Nat :=
  (List.range' 1 numLR).foldl losersIter (wbr, [], c)

/-- `winnersFinal.winnerGoesToMatchId = grandFinal.id` (and the same for the
losers final): only the head of the last round is touched. -/
def linkHeadWinner (gfId : Nat) : List Match → List Match
| [] => []
| m :: rest => { m with winnerGoesToMatchId := some gfId } :: rest

structure BracketResult : Type where
  winnersMatches : List Match
  losersMatches : List Match
  grandFinal : Match
  grandFinalReset : Match
deriving DecidableEq, Repr

def createDoubleEliminationBracket (playerIds : List Nat) : BracketResult :=
  match losersStage (winnersStage playerIds).1 (winnersStage playerIds).2
      ((numRoundsWinners playerIds.length - 1) * 2) with
  | (wbr, lbr, c) =>
    { winnersMatches :=
        (modifyNth (linkHeadWinner c) (wbr.length - 1) wbr).flatten
      losersMatches :=
        (modifyNth (linkHeadWinner c) (lbr.length - 1) lbr).flatten
      grandFinal :=
        createMatch c (numRoundsWinners playerIds.length + 1) .winners none none
      grandFinalReset :=
        createMatch (c + 1) (numRoundsWinners playerIds.length + 2) .winners
          none none }

/-- round numbering of a by-round list, starting at `b`. -/
def RoundsNumbered : Nat → List (List Match) → Prop
| _, [] => True
| b, r :: rest => (∀ m ∈ r, m.round = b) ∧ RoundsNumbered (b + 1) rest

end Tournament

-- ===========================================================================
-- Theorems
-- ===========================================================================

namespace Quelhas

/-- `getValidMoves` reads the board, turn and swap flags, never the winner
field, so setting the winner does not change the enumeration. -/
theorem getValidMoves_winner_irrel (s : QState) (w : Option GameOutcome)
    (p : PlayerRole) :
    getValidMoves { s with winner := w } p = getValidMoves s p := rfl

/-- C1: for every state and every valid non-swap segment move, if the
opposing player's enumeration is empty after `applyMove`, the resulting
state is terminal and the winner recorded is the opponent of the mover:
the player who just moved loses (misère). -/
theorem quelhas_last_mover_loses (s : QState) (m : QMove) (p : PlayerRole)
    (hv : validateMove s m p = true) (hns : m.swap = false)
    (he : getValidMoves (applyMove s m p) p.other = []) :
    isGameOver (applyMove s m p) = true ∧
      getWinner (applyMove s m p) = some (.winBy p.other) := by
  unfold applyMove at *
  rw [hns] at he ⊢
  simp only [Bool.false_and, if_neg (Bool.false_ne_true)] at he ⊢
  by_cases hm : hasValidMoves
      { s with
        board := m.cells.foldl (fun b c => setCell b c.1 c.2 .filled) s.board
        lastMove := some m
        moveCount := s.moveCount + 1
        canSwap := s.moveCount + 1 == 1
        currentPlayer := p.other } p.other
  · rw [hm] at he
    simp only [Bool.not_true, if_neg (Bool.false_ne_true)] at he
    have : hasValidMoves
        { s with
          board := m.cells.foldl (fun b c => setCell b c.1 c.2 .filled) s.board
          lastMove := some m
          moveCount := s.moveCount + 1
          canSwap := s.moveCount + 1 == 1
          currentPlayer := p.other } p.other = false := by
      unfold hasValidMoves
      rw [he]
      rfl
    rw [hm] at this
    exact absurd this (by simp)
  · rw [Bool.not_eq_true] at hm
    rw [hm]
    simp only [Bool.not_false, if_pos rfl]
    constructor
    · rfl
    · rfl

end Quelhas

namespace Quelhas

/-- C1 witness: a concrete valid vertical move that fills the board, after
which the horizontal player has no move; the mover loses. -/
theorem quelhas_last_mover_loses_witness :
    validateMove nearFullState fillingMove .player1 = true ∧
      getValidMoves (applyMove nearFullState fillingMove .player1)
        PlayerRole.player1.other = [] ∧
      (isGameOver (applyMove nearFullState fillingMove .player1) = true ∧
        getWinner (applyMove nearFullState fillingMove .player1) =
          some (.winBy PlayerRole.player1.other)) :=
  ⟨by decide, by decide,
    quelhas_last_mover_loses nearFullState fillingMove .player1 (by decide) rfl
      (by decide)⟩

end Quelhas

namespace GatosCaes

/-- C6: `validateMove` of the Gatos & Caes engine accepts a placement
exactly under the five spec conditions (not terminal, mover's turn, in
bounds and empty, first-cat in / first-dog out of the central zone, no
orthogonal neighbour of the opposite species). -/
theorem gatos_validate_iff (s : GState) (m : GMove) (p : PlayerRole) :
    validateMove s m p = true ↔ LegalPlacementSpec s m p := by
  unfold validateMove LegalPlacementSpec
  split_ifs with h1 h2 h3 h4 h5 h6 h7
  · simp only [Bool.false_eq_true, false_iff]
    intro hspec
    exact h1 hspec.1
  · simp only [Bool.false_eq_true, false_iff]
    intro hspec
    exact h2 hspec.2.1
  · simp only [Bool.false_eq_true, false_iff]
    intro hspec
    obtain ⟨-, -, ⟨hb1, hb2, hb3, hb4⟩, -⟩ := hspec
    simp only [boardSize, Bool.or_eq_true, decide_eq_true_eq] at h3
    rcases h3 with ((h3 | h3) | h3) | h3 <;> omega
  · simp only [Bool.false_eq_true, false_iff]
    intro hspec
    exact h4 hspec.2.2.2.1
  · simp only [Bool.false_eq_true, false_iff]
    intro hspec
    obtain ⟨-, -, -, -, hcat, -, -⟩ := hspec
    simp only [Bool.and_eq_true, Bool.not_eq_true', beq_iff_eq] at h5
    obtain ⟨⟨hp, hfc⟩, hz⟩ := h5
    obtain ⟨hr, hc⟩ := hcat hp hfc
    unfold isInCentralZone at hz
    simp only [Bool.and_eq_false_iff, decide_eq_false_iff_not] at hz
    rcases hz with ((hz | hz) | hz) | hz <;> omega
  · simp only [Bool.false_eq_true, false_iff]
    intro hspec
    obtain ⟨-, -, -, -, -, hdog, -⟩ := hspec
    simp only [Bool.and_eq_true, Bool.not_eq_true', bne_iff_ne, ne_eq,
      beq_iff_eq] at h6
    obtain ⟨⟨hp, hfd⟩, hz⟩ := h6
    have hp2 : p = .player2 := by
      cases p
      · exact absurd rfl hp
      · rfl
    unfold isInCentralZone at hz
    simp only [Bool.and_eq_true, decide_eq_true_eq] at hz
    exact hdog hp2 hfd ⟨by omega, by omega⟩
  · simp only [Bool.false_eq_true, false_iff]
    intro hspec
    obtain ⟨-, -, -, -, -, -, hadj⟩ := hspec
    unfold hasAdjacentOpponent at h7
    simp only [List.any_eq_true, Bool.and_eq_true, beq_iff_eq] at h7
    obtain ⟨n, hn, hb, hc⟩ := h7
    exact hadj n hn ⟨hb, hc⟩
  · push_neg at h1 h2 h4
    rw [Bool.not_eq_true] at h3 h5 h6 h7
    constructor
    · intro _
      refine ⟨h1, h2, ?_, h4, ?_, ?_, ?_⟩
      · simp only [boardSize, Bool.or_eq_false_iff, decide_eq_false_iff_not] at h3
        obtain ⟨⟨⟨h3a, h3b⟩, h3c⟩, h3d⟩ := h3
        refine ⟨?_, ?_, ?_, ?_⟩ <;> omega
      · intro hp hfc
        cases hcz : isInCentralZone m.row m.col with
        | true =>
          unfold isInCentralZone at hcz
          simp only [Bool.and_eq_true, decide_eq_true_eq] at hcz
          exact ⟨by omega, by omega⟩
        | false =>
          exfalso
          have ht : (p == PlayerRole.player1 && !s.isFirstCatPlaced &&
              !isInCentralZone m.row m.col) = true := by
            simp [hp, hfc, hcz]
          exact absurd (h5.symm.trans ht) (by decide)
      · intro hp hfd hz
        obtain ⟨hr, hc⟩ := hz
        have hzb : isInCentralZone m.row m.col = true := by
          unfold isInCentralZone
          simp only [Bool.and_eq_true, decide_eq_true_eq]
          refine ⟨⟨⟨?_, ?_⟩, ?_⟩, ?_⟩ <;> omega
        have ht : (p != PlayerRole.player1 && !s.isFirstDogPlaced &&
            isInCentralZone m.row m.col) = true := by
          simp [hp, hfd, hzb]
        exact absurd (h6.symm.trans ht) (by decide)
      · intro n hn hcontra
        have ht : hasAdjacentOpponent s.board m.row m.col (pieceOf p) = true := by
          unfold hasAdjacentOpponent
          simp only [List.any_eq_true, Bool.and_eq_true, beq_iff_eq]
          exact ⟨n, hn, hcontra.1, hcontra.2⟩
        exact absurd (h7.symm.trans ht) (by decide)
    · intro _
      rfl

end GatosCaes

namespace Produto

theorem mapGet_mapSet_self (b : PBoard) (k : Int × Int) (v : PCell) :
    mapGet (mapSet b k v) k = some v := by
  induction b with
  | nil => simp [mapSet, mapGet]
  | cons e rest ih =>
    obtain ⟨k', v'⟩ := e
    by_cases hk : k' = k
    · subst hk
      simp [mapSet, mapGet]
    · simp only [mapSet, if_neg hk]
      unfold mapGet at ih ⊢
      rw [List.find?_cons_of_neg _ (by simp [hk])]
      exact ih

theorem mapGet_mapSet_ne (b : PBoard) (k k' : Int × Int) (v : PCell)
    (hne : k' ≠ k) : mapGet (mapSet b k v) k' = mapGet b k' := by
  induction b with
  | nil =>
    simp only [mapSet]
    unfold mapGet
    rw [List.find?_cons_of_neg _
      (by simp only [beq_iff_eq]; exact fun h => hne h.symm)]
  | cons e rest ih =>
    obtain ⟨k0, v0⟩ := e
    by_cases h0 : k0 = k
    · subst h0
      have hms : mapSet ((k0, v0) :: rest) k0 v = (k0, v) :: rest := by
        simp [mapSet]
      rw [hms]
      unfold mapGet
      rw [List.find?_cons_of_neg _
          (by simp only [beq_iff_eq]; exact fun h => hne h.symm),
        List.find?_cons_of_neg _
          (by simp only [beq_iff_eq]; exact fun h => hne h.symm)]
    · simp only [mapSet, if_neg h0]
      by_cases h1 : k0 = k'
      · subst h1
        unfold mapGet
        rw [List.find?_cons_of_pos _ (by simp),
          List.find?_cons_of_pos _ (by simp)]
      · unfold mapGet at ih ⊢
        rw [List.find?_cons_of_neg _ (by simp only [beq_iff_eq]; exact h1),
          List.find?_cons_of_neg _ (by simp only [beq_iff_eq]; exact h1)]
        exact ih

theorem mapSet_length (b : PBoard) (k : Int × Int) (v : PCell)
    (hk : mapHas b k = true) : (mapSet b k v).length = b.length := by
  induction b with
  | nil => simp [mapHas] at hk
  | cons e rest ih =>
    obtain ⟨k0, v0⟩ := e
    by_cases h0 : k0 = k
    · subst h0
      simp [mapSet]
    · simp only [mapSet, if_neg h0, List.length_cons]
      have hk' : mapHas rest k = true := by
        simp only [mapHas, List.any_cons, Bool.or_eq_true, beq_iff_eq] at hk
        rcases hk with h | h
        · exact absurd h h0
        · simpa [mapHas] using h
      rw [ih hk']

theorem mapHas_mapSet (b : PBoard) (k : Int × Int) (v : PCell)
    (hk : mapHas b k = true) (k' : Int × Int) :
    mapHas (mapSet b k v) k' = mapHas b k' := by
  induction b with
  | nil => simp [mapHas] at hk
  | cons e rest ih =>
    obtain ⟨k0, v0⟩ := e
    by_cases h0 : k0 = k
    · subst h0
      simp [mapSet, mapHas]
    · simp only [mapSet, if_neg h0, mapHas, List.any_cons]
      have hk' : mapHas rest k = true := by
        simp only [mapHas, List.any_cons, Bool.or_eq_true, beq_iff_eq] at hk
        rcases hk with h | h
        · exact absurd h h0
        · simpa [mapHas] using h
      unfold mapHas at ih
      rw [ih hk']

theorem countNonEmpty_mapSet (b : PBoard) (k : Int × Int) (v : PCell)
    (hget : mapGet b k = some .empty) (hv : v ≠ .empty) :
    countNonEmpty (mapSet b k v) = countNonEmpty b + 1 := by
  induction b with
  | nil => simp [mapGet] at hget
  | cons e rest ih =>
    obtain ⟨k0, v0⟩ := e
    by_cases h0 : k0 = k
    · subst h0
      have hv0 : v0 = PCell.empty := by
        unfold mapGet at hget
        rw [List.find?_cons_of_pos _ (by simp)] at hget
        simpa using hget
      subst hv0
      have hms : mapSet ((k0, PCell.empty) :: rest) k0 v =
          (k0, v) :: rest := by
        simp [mapSet]
      rw [hms]
      unfold countNonEmpty
      simp only [List.filter_cons]
      cases v
      · exact absurd rfl hv
      · simp
      · simp
    · have hget' : mapGet rest k = some .empty := by
        unfold mapGet at hget ⊢
        rw [List.find?_cons_of_neg _ (by simp only [beq_iff_eq]; exact h0)]
          at hget
        exact hget
      unfold countNonEmpty at ih ⊢
      simp only [mapSet, if_neg h0, List.filter_cons]
      cases hv0 : (v0 != PCell.empty)
      · simp only [hv0, Bool.false_eq_true, if_false]
        exact ih hget'
      · have hrec := ih hget'
        simp only [hv0]
        simp only [if_true, List.length_cons]
        omega

theorem countEmpty_add_countNonEmpty (b : PBoard) :
    countEmptyCells b + countNonEmpty b = b.length := by
  induction b with
  | nil => simp [countEmptyCells, countNonEmpty]
  | cons e rest ih =>
    obtain ⟨k0, v0⟩ := e
    unfold countEmptyCells countNonEmpty at ih ⊢
    simp only [List.filter_cons]
    cases v0 <;> simp <;> omega

theorem placeAll_spec (b0 : PBoard) :
    ∀ (pls : List ((Int × Int) × PCell)) (bcur : PBoard)
      (used : List (Int × Int)) (bl wh : Nat),
    placementsOk b0 pls used = true →
    (∀ k, k ∉ used → mapGet bcur k = mapGet b0 k) →
    (∀ k, mapHas bcur k = mapHas b0 k) →
    (placeAll bcur bl wh pls).1.length = bcur.length ∧
    (placeAll bcur bl wh pls).2.1 + (placeAll bcur bl wh pls).2.2 =
      bl + wh + pls.length ∧
    countNonEmpty (placeAll bcur bl wh pls).1 =
      countNonEmpty bcur + pls.length := by
  intro pls
  induction pls with
  | nil =>
    intro bcur used bl wh hok hagree hhas
    simp [placeAll]
  | cons pl rest ih =>
    intro bcur used bl wh hok hagree hhas
    obtain ⟨coord, color⟩ := pl
    unfold placementsOk at hok
    split_ifs at hok with h1 h2 h3 h4
    have h1' : mapHas b0 coord = true := by simpa using h1
    push_neg at h2
    have hmem : coord ∉ used := by simpa using h3
    have hvne : color ≠ PCell.empty := by
      intro hcv
      subst hcv
      exact h4 (by decide)
    have hgetb : mapGet bcur coord = some .empty := by
      rw [hagree coord hmem]
      exact h2
    have hhasb : mapHas bcur coord = true := by
      rw [hhas coord]
      exact h1'
    have hagree2 : ∀ k, k ∉ coord :: used →
        mapGet (mapSet bcur coord color) k = mapGet b0 k := by
      intro k hk
      rw [List.mem_cons, not_or] at hk
      rw [mapGet_mapSet_ne bcur coord k color hk.1]
      exact hagree k hk.2
    have hhas2 : ∀ k, mapHas (mapSet bcur coord color) k = mapHas b0 k := by
      intro k
      rw [mapHas_mapSet bcur coord color hhasb k]
      exact hhas k
    have hlen2 := mapSet_length bcur coord color hhasb
    have hcnt2 := countNonEmpty_mapSet bcur coord color hgetb hvne
    by_cases hblack : (color == PCell.black) = true
    · have hred : placeAll bcur bl wh ((coord, color) :: rest) =
          placeAll (mapSet bcur coord color) (bl + 1) wh rest := by
        simp only [placeAll, hblack]
        simp
      rw [hred]
      obtain ⟨ha, hb, hc⟩ := ih (mapSet bcur coord color) (coord :: used)
        (bl + 1) wh hok hagree2 hhas2
      refine ⟨?_, ?_, ?_⟩
      · rw [ha, hlen2]
      · rw [hb]
        simp only [List.length_cons]
        omega
      · rw [hc, hcnt2]
        simp only [List.length_cons]
        omega
    · have hred : placeAll bcur bl wh ((coord, color) :: rest) =
          placeAll (mapSet bcur coord color) bl (wh + 1) rest := by
        simp only [placeAll, hblack]
        simp
      rw [hred]
      obtain ⟨ha, hb, hc⟩ := ih (mapSet bcur coord color) (coord :: used)
        bl (wh + 1) hok hagree2 hhas2
      refine ⟨?_, ?_, ?_⟩
      · rw [ha, hlen2]
      · rw [hb]
        simp only [List.length_cons]
        omega
      · rw [hc, hcnt2]
        simp only [List.length_cons]
        omega

theorem decideWinner_isSome (b : PBoard) (bl wh : Nat) :
    decideWinner b bl wh ≠ none := by
  unfold decideWinner
  by_cases c1 : calculateScore b .white < calculateScore b .black
  · rw [if_pos c1]
    exact Option.some_ne_none _
  · rw [if_neg c1]
    by_cases c2 : calculateScore b .black < calculateScore b .white
    · rw [if_pos c2]
      exact Option.some_ne_none _
    · rw [if_neg c2]
      by_cases c3 : bl < wh
      · rw [if_pos c3]
        exact Option.some_ne_none _
      · rw [if_neg c3]
        by_cases c4 : wh < bl
        · rw [if_pos c4]
          exact Option.some_ne_none _
        · rw [if_neg c4]
          exact Option.some_ne_none _

theorem decideWinner_ne_draw (b : PBoard) (bl wh : Nat) (hne : bl ≠ wh) :
    decideWinner b bl wh ≠ some .draw := by
  intro h
  unfold decideWinner at h
  by_cases c1 : calculateScore b .white < calculateScore b .black
  · rw [if_pos c1] at h
    simp at h
  · rw [if_neg c1] at h
    by_cases c2 : calculateScore b .black < calculateScore b .white
    · rw [if_pos c2] at h
      simp at h
    · rw [if_neg c2] at h
      by_cases c3 : bl < wh
      · rw [if_pos c3] at h
        simp at h
      · rw [if_neg c3] at h
        by_cases c4 : wh < bl
        · rw [if_pos c4] at h
          simp at h
        · omega

theorem applyMove_board (s : PState) (m : PMove) (p : PlayerRole) :
    (applyMove s m p).board =
      (placeAll s.board s.blackPiecesPlaced s.whitePiecesPlaced
        m.placements).1 := by
  unfold applyMove
  dsimp only
  split_ifs <;> rfl

theorem applyMove_counts (s : PState) (m : PMove) (p : PlayerRole) :
    (applyMove s m p).blackPiecesPlaced =
      (placeAll s.board s.blackPiecesPlaced s.whitePiecesPlaced
        m.placements).2.1 ∧
    (applyMove s m p).whitePiecesPlaced =
      (placeAll s.board s.blackPiecesPlaced s.whitePiecesPlaced
        m.placements).2.2 := by
  unfold applyMove
  dsimp only
  split_ifs <;> exact ⟨rfl, rfl⟩

theorem applyMove_winner_of_full (s : PState) (m : PMove) (p : PlayerRole)
    (hfull : countEmptyCells
      (placeAll s.board s.blackPiecesPlaced s.whitePiecesPlaced
        m.placements).1 = 0) :
    (applyMove s m p).winner =
      decideWinner
        (placeAll s.board s.blackPiecesPlaced s.whitePiecesPlaced
          m.placements).1
        (placeAll s.board s.blackPiecesPlaced s.whitePiecesPlaced
          m.placements).2.1
        (placeAll s.board s.blackPiecesPlaced s.whitePiecesPlaced
          m.placements).2.2 := by
  unfold applyMove
  dsimp only
  have hb : (countEmptyCells
      (placeAll s.board s.blackPiecesPlaced s.whitePiecesPlaced
        m.placements).1 == 0) = true := by
    simpa using hfull
  rw [hb]
  have hw : ((decideWinner
      (placeAll s.board s.blackPiecesPlaced s.whitePiecesPlaced
        m.placements).1
      (placeAll s.board s.blackPiecesPlaced s.whitePiecesPlaced
        m.placements).2.1
      (placeAll s.board s.blackPiecesPlaced s.whitePiecesPlaced
        m.placements).2.2) == (none : Option GameOutcome)) = false := by
    simp only [beq_eq_false_iff_ne, ne_eq]
    exact decideWinner_isSome _ _ _
  simp only [if_pos rfl]
  simp [hw]

theorem validateMove_placementsOk (s : PState) (m : PMove) (p : PlayerRole)
    (hv : validateMove s m p = true) :
    placementsOk s.board m.placements [] = true := by
  unfold validateMove at hv
  split_ifs at hv
  all_goals first
  | exact hv
  | exact absurd hv (by decide)

/-- C10: in every reachable Produto state the two placed-piece counters sum
to the number of occupied cells of the 61-cell board; when the board is
full the sum is 61, the counters differ, and the winner is never a draw —
the equal-scores-and-equal-pieces draw branch of `applyMove` is
unreachable. -/
theorem produto_piece_sum_invariant (s : PState) (h : Reachable s) :
    s.board.length = 61 ∧
    s.blackPiecesPlaced + s.whitePiecesPlaced = countNonEmpty s.board ∧
    (countEmptyCells s.board = 0 →
      s.blackPiecesPlaced + s.whitePiecesPlaced = 61 ∧
      s.blackPiecesPlaced ≠ s.whitePiecesPlaced ∧
      s.winner ≠ some .draw) := by
  induction h with
  | init p =>
    cases p <;>
      exact ⟨by decide, by decide, fun hfull => absurd hfull (by decide)⟩
  | step s m p hs hv ih =>
    obtain ⟨ihlen, ihsum, -⟩ := ih
    have hok := validateMove_placementsOk s m p hv
    have hspec := placeAll_spec s.board m.placements s.board []
      s.blackPiecesPlaced s.whitePiecesPlaced hok (fun k _ => rfl)
      (fun k => rfl)
    obtain ⟨hlen2, hsum2, hcnt2⟩ := hspec
    obtain ⟨hbm, hwm⟩ := applyMove_counts s m p
    have hboard := applyMove_board s m p
    refine ⟨?_, ?_, ?_⟩
    · rw [hboard, hlen2, ihlen]
    · rw [hboard, hbm, hwm, hsum2, hcnt2]
      omega
    · intro hfull
      rw [hboard] at hfull
      have hsum61 : (placeAll s.board s.blackPiecesPlaced s.whitePiecesPlaced
          m.placements).2.1 +
          (placeAll s.board s.blackPiecesPlaced s.whitePiecesPlaced
            m.placements).2.2 = 61 := by
        have hpart := countEmpty_add_countNonEmpty
          (placeAll s.board s.blackPiecesPlaced s.whitePiecesPlaced
            m.placements).1
        rw [hfull, hlen2, ihlen] at hpart
        omega
      refine ⟨?_, ?_, ?_⟩
      · rw [hbm, hwm]
        exact hsum61
      · rw [hbm, hwm]
        omega
      · rw [applyMove_winner_of_full s m p hfull]
        apply decideWinner_ne_draw
        omega

theorem runMoves_reachable :
    ∀ (ms : List PMove) (s s' : PState), Reachable s →
      runMoves s ms = some s' → Reachable s' := by
  intro ms
  induction ms with
  | nil =>
    intro s s' hs hrun
    unfold runMoves at hrun
    exact (Option.some.injEq .. ▸ hrun : s = s') ▸ hs
  | cons m ms ih =>
    intro s s' hs hrun
    unfold runMoves stepMove at hrun
    by_cases hval : validateMove s m s.currentPlayer = true
    · rw [if_pos hval] at hrun
      exact ih (applyMove s m s.currentPlayer) s'
        (Reachable.step s m s.currentPlayer hs hval) hrun
    · rw [if_neg hval] at hrun
      exact absurd hrun (by simp)

set_option maxRecDepth 10000 in
/-- C10 witness: the concrete all-black filling game reaches a full board
whose counters sum to 61 and whose winner is not a draw. -/
theorem produto_piece_sum_invariant_witness :
    runMoves (createInitialState .player1) witnessMoves = some witnessFinal ∧
    countEmptyCells witnessFinal.board = 0 ∧
    (witnessFinal.blackPiecesPlaced + witnessFinal.whitePiecesPlaced = 61 ∧
      witnessFinal.blackPiecesPlaced ≠ witnessFinal.whitePiecesPlaced ∧
      witnessFinal.winner ≠ some .draw) :=
  ⟨rfl, by decide,
    (produto_piece_sum_invariant witnessFinal
      (runMoves_reachable witnessMoves (createInitialState .player1)
        witnessFinal (Reachable.init .player1) rfl)).2.2 (by decide)⟩

end Produto


namespace AtariGo

/-- all 81 on-board coordinates. -/
def boardFinset : Finset (Int × Int) := Finset.Icc ((0 : Int), (0 : Int)) (8, 8)

theorem mem_boardFinset_iff (x : Int × Int) :
    x ∈ boardFinset ↔ inBounds x.1 x.2 = true := by
  obtain ⟨a, b⟩ := x
  have hb9 : ((boardSize : Nat) : Int) = 9 := rfl
  rw [boardFinset, Finset.mem_Icc]
  simp only [inBounds, Bool.and_eq_true, decide_eq_true_eq, Prod.le_def]
  constructor
  · rintro ⟨⟨u1, u2⟩, v1, v2⟩
    refine ⟨⟨⟨?_, ?_⟩, ?_⟩, ?_⟩ <;> omega
  · rintro ⟨⟨⟨u1, u2⟩, v1⟩, v2⟩
    refine ⟨⟨?_, ?_⟩, ?_, ?_⟩ <;> omega

theorem boardFinset_card : boardFinset.card = 81 := by decide

theorem nodup_inBounds_length_le (l : List (Int × Int)) (hnd : l.Nodup)
    (hin : ∀ x ∈ l, inBounds x.1 x.2 = true) : l.length ≤ 81 := by
  have hsub : l.toFinset ⊆ boardFinset := by
    intro x hx
    rw [List.mem_toFinset] at hx
    rw [mem_boardFinset_iff]
    exact hin x hx
  have hcard : l.toFinset.card = l.length := List.toFinset_card_of_nodup hnd
  have := Finset.card_le_card hsub
  rw [boardFinset_card] at this
  omega

theorem mem_foldl_libStep (b : Board) (ns : List (Int × Int)) :
    ∀ (acc : List (Int × Int)) (x : Int × Int),
    (x ∈ ns.foldl
        (fun acc n =>
          if inBounds n.1 n.2 && (cellAt b n.1 n.2 == some .empty) &&
              !(n ∈ acc) then acc ++ [n]
          else acc)
        acc) ↔
      x ∈ acc ∨ (x ∈ ns ∧ inBounds x.1 x.2 = true ∧
        cellAt b x.1 x.2 = some .empty) := by
  induction ns with
  | nil => simp
  | cons n ns ih =>
    intro acc x
    rw [List.foldl_cons]
    by_cases hc : (inBounds n.1 n.2 && (cellAt b n.1 n.2 == some .empty) &&
        !(n ∈ acc)) = true
    · rw [if_pos hc, ih]
      simp only [Bool.and_eq_true, beq_iff_eq, Bool.not_eq_true',
        decide_eq_false_iff_not] at hc
      obtain ⟨⟨hb1, hb2⟩, -⟩ := hc
      simp only [List.mem_append, List.mem_singleton, List.mem_cons,
        List.not_mem_nil, or_false]
      constructor
      · rintro ((hx | rfl) | ⟨hx, hP⟩)
        · exact Or.inl hx
        · exact Or.inr ⟨Or.inl rfl, hb1, hb2⟩
        · exact Or.inr ⟨Or.inr hx, hP⟩
      · rintro (hx | ⟨rfl | hx, hP⟩)
        · exact Or.inl (Or.inl hx)
        · exact Or.inl (Or.inr rfl)
        · exact Or.inr ⟨hx, hP⟩
    · rw [if_neg hc, ih]
      simp only [Bool.and_eq_true, beq_iff_eq, Bool.not_eq_true',
        decide_eq_false_iff_not, not_and, not_not] at hc
      simp only [List.mem_cons]
      constructor
      · rintro (hx | ⟨hx, hP⟩)
        · exact Or.inl hx
        · exact Or.inr ⟨Or.inr hx, hP⟩
      · rintro (hx | ⟨rfl | hx, hP⟩)
        · exact Or.inl hx
        · exact Or.inl (hc ⟨hP.1, hP.2⟩)
        · exact Or.inr ⟨hx, hP⟩

theorem mem_addLiberties (b : Board) (acc : List (Int × Int)) (p x : Int × Int) :
    x ∈ addLiberties b acc p ↔
      x ∈ acc ∨ (x ∈ neighborsOf p.1 p.2 ∧ inBounds x.1 x.2 = true ∧
        cellAt b x.1 x.2 = some .empty) :=
  mem_foldl_libStep b (neighborsOf p.1 p.2) acc x

theorem mem_libFold (b : Board) (g : List (Int × Int)) :
    ∀ (acc : List (Int × Int)) (x : Int × Int),
    (x ∈ g.foldl (addLiberties b) acc) ↔
      x ∈ acc ∨ ∃ q ∈ g, x ∈ neighborsOf q.1 q.2 ∧ inBounds x.1 x.2 = true ∧
        cellAt b x.1 x.2 = some .empty := by
  induction g with
  | nil => simp
  | cons q g ih =>
    intro acc x
    rw [List.foldl_cons, ih, mem_addLiberties]
    simp only [List.mem_cons]
    constructor
    · rintro ((hx | ⟨hn, hP⟩) | ⟨w, hw, hP⟩)
      · exact Or.inl hx
      · exact Or.inr ⟨q, Or.inl rfl, hn, hP⟩
      · exact Or.inr ⟨w, Or.inr hw, hP⟩
    · rintro (hx | ⟨w, rfl | hw, hP⟩)
      · exact Or.inl (Or.inl hx)
      · exact Or.inl (Or.inr hP)
      · exact Or.inr ⟨w, hw, hP⟩

theorem countLiberties_eq_zero_iff (b : Board) (g : List (Int × Int)) :
    countLiberties b g = 0 ↔
      ∀ q ∈ g, ∀ e ∈ neighborsOf q.1 q.2,
        ¬ (inBounds e.1 e.2 = true ∧ cellAt b e.1 e.2 = some .empty) := by
  unfold countLiberties
  rw [List.length_eq_zero, List.eq_nil_iff_forall_not_mem]
  constructor
  · intro h q hq e he hcontra
    exact h e ((mem_libFold b g [] e).mpr
      (Or.inr ⟨q, hq, he, hcontra.1, hcontra.2⟩))
  · intro h x hx
    rcases (mem_libFold b g [] x).mp hx with hfalse | ⟨q, hq, hn, h1, h2⟩
    · exact absurd hfalse (List.not_mem_nil x)
    · exact h q hq x hn ⟨h1, h2⟩

theorem inBounds_iff (r c : Int) :
    inBounds r c = true ↔ 0 ≤ r ∧ r < 9 ∧ 0 ≤ c ∧ c < 9 := by
  have hb9 : ((boardSize : Nat) : Int) = 9 := rfl
  unfold inBounds
  simp only [Bool.and_eq_true, decide_eq_true_eq]
  constructor
  · rintro ⟨⟨⟨h1, h2⟩, h3⟩, h4⟩
    refine ⟨?_, ?_, ?_, ?_⟩ <;> omega
  · rintro ⟨h1, h2, h3, h4⟩
    refine ⟨⟨⟨?_, ?_⟩, ?_⟩, ?_⟩ <;> omega

theorem cellAt_some_of_inBounds (b : Board) (hwf : WellFormed b) (r c : Int)
    (hin : inBounds r c = true) : ∃ v, cellAt b r c = some v := by
  rw [inBounds_iff] at hin
  obtain ⟨h1, h2, h3, h4⟩ := hin
  obtain ⟨hlen, hrows⟩ := hwf
  unfold cellAt
  rw [if_neg (by simp; omega)]
  have hr : r.toNat < b.length := by rw [hlen]; unfold boardSize; omega
  rw [List.getElem?_eq_getElem hr]
  simp only [Option.some_bind]
  have hrow : b[r.toNat] ∈ b := List.getElem_mem hr
  have hc : c.toNat < (b[r.toNat]).length := by
    rw [hrows _ hrow]; unfold boardSize; omega
  rw [List.getElem?_eq_getElem hc]
  exact ⟨_, rfl⟩

theorem inBounds_of_cellAt_some (b : Board) (hwf : WellFormed b) (r c : Int)
    (v : ACell) (h : cellAt b r c = some v) : inBounds r c = true := by
  unfold cellAt at h
  by_cases hneg : (r < 0 || c < 0) = true
  · rw [if_pos hneg] at h
    exact absurd h (by simp)
  · rw [if_neg hneg] at h
    rw [Bool.not_eq_true] at hneg
    simp only [Bool.or_eq_false_iff, decide_eq_false_iff_not, not_lt] at hneg
    obtain ⟨hr0, hc0⟩ := hneg
    obtain ⟨hlen, hrows⟩ := hwf
    rcases hrow : b[r.toNat]? with - | row
    · rw [hrow] at h
      exact absurd h (by simp)
    · rw [hrow] at h
      simp only [Option.some_bind] at h
      obtain ⟨hrlt, hreq⟩ := List.getElem?_eq_some_iff.mp hrow
      obtain ⟨hclt, -⟩ := List.getElem?_eq_some_iff.mp h
      have hrm : row ∈ b := hreq ▸ List.getElem_mem hrlt
      rw [inBounds_iff]
      rw [hlen] at hrlt
      rw [hrows _ hrm] at hclt
      unfold boardSize at hrlt hclt
      refine ⟨?_, ?_, ?_, ?_⟩ <;> omega

theorem WellFormed_setCell (b : Board) (hwf : WellFormed b) (r c : Int)
    (v : ACell) : WellFormed (setCell b r c v) := by
  obtain ⟨hlen, hrows⟩ := hwf
  unfold setCell
  by_cases hneg : (r < 0 || c < 0) = true
  · rw [if_pos hneg]
    exact ⟨hlen, hrows⟩
  · rw [if_neg hneg]
    by_cases hr : r.toNat < b.length
    · constructor
      · rw [List.length_set]
        exact hlen
      · intro row hrow
        rcases List.mem_or_eq_of_mem_set hrow with hmem | heq
        · exact hrows _ hmem
        · subst heq
          rw [List.length_set]
          have hg : b.getD r.toNat [] = b[r.toNat] := List.getD_eq_getElem b [] hr
          rw [hg]
          exact hrows _ (List.getElem_mem hr)
    · rw [List.set_eq_of_length_le (by omega)]
      exact ⟨hlen, hrows⟩

theorem cellAt_setCell_self (b : Board) (hwf : WellFormed b) (r c : Int)
    (hin : inBounds r c = true) (v : ACell) :
    cellAt (setCell b r c v) r c = some v := by
  rw [inBounds_iff] at hin
  obtain ⟨h1, h2, h3, h4⟩ := hin
  obtain ⟨hlen, hrows⟩ := hwf
  unfold setCell cellAt
  rw [if_neg (by simp; omega), if_neg (by simp; omega)]
  have hr : r.toNat < b.length := by rw [hlen]; unfold boardSize; omega
  rw [List.getElem?_set_self hr]
  simp only [Option.some_bind]
  have hg : b.getD r.toNat [] = b[r.toNat] := List.getD_eq_getElem b [] hr
  rw [hg]
  have hc : c.toNat < (b[r.toNat]).length := by
    rw [hrows _ (List.getElem_mem hr)]; unfold boardSize; omega
  rw [List.getElem?_set_self hc]

theorem cellAt_setCell_of_ne (b : Board) (r c : Int) (v : ACell) (p q : Int)
    (hne : ¬(p = r ∧ q = c)) :
    cellAt (setCell b r c v) p q = cellAt b p q := by
  unfold setCell
  by_cases hneg : (r < 0 || c < 0) = true
  · rw [if_pos hneg]
  · rw [if_neg hneg]
    rw [Bool.not_eq_true] at hneg
    simp only [Bool.or_eq_false_iff, decide_eq_false_iff_not, not_lt] at hneg
    obtain ⟨hr0, hc0⟩ := hneg
    unfold cellAt
    by_cases hpq : (p < 0 || q < 0) = true
    · rw [if_pos hpq, if_pos hpq]
    · rw [if_neg hpq, if_neg hpq]
      rw [Bool.not_eq_true] at hpq
      simp only [Bool.or_eq_false_iff, decide_eq_false_iff_not, not_lt] at hpq
      obtain ⟨hp0, hq0⟩ := hpq
      by_cases hr : r.toNat < b.length
      · by_cases hrp : p.toNat = r.toNat
        · have hpr : p = r := by omega
          have hqc : q ≠ c := fun h => hne ⟨hpr, h⟩
          rw [hrp, List.getElem?_set_self hr]
          simp only [Option.some_bind]
          have hg : b.getD r.toNat [] = b[r.toNat] := List.getD_eq_getElem b [] hr
          rw [hg, List.getElem?_eq_getElem hr]
          simp only [Option.some_bind]
          rw [List.getElem?_set_ne (by omega)]
        · rw [List.getElem?_set_ne (fun h => hrp h.symm)]
      · rw [List.set_eq_of_length_le (by omega)]

/-- membership of the four pushed neighbours. -/
theorem mem_neighborsOf_self (r c : Int) :
    (r - 1, c) ∈ neighborsOf r c ∧ (r + 1, c) ∈ neighborsOf r c ∧
      (r, c - 1) ∈ neighborsOf r c ∧ (r, c + 1) ∈ neighborsOf r c := by
  simp [neighborsOf]

/-- invariant-based correctness of the flood-fill loop `getGroupAux`: with
enough fuel, starting from consistent intermediate data, the returned list
extends `group`, contains only on-board stones of the colour connected to
`start`, is closed under same-colour adjacency, and contains `start`. -/
theorem getGroupAux_spec (b : Board) (color0 : ACell) (start : Int × Int) :
    ∀ (fuel : Nat) (visited group stack : List (Int × Int)),
    stack.length + 4 * (81 - visited.length) ≤ fuel →
    (∀ x, x ∈ visited ↔ x ∈ group) →
    visited.Nodup →
    (∀ x ∈ visited, inBounds x.1 x.2 = true ∧ cellAt b x.1 x.2 = some color0 ∧
      SameColorConnected b color0 start x) →
    (∀ w ∈ stack, w = start ∨ ∃ v ∈ visited, w ∈ neighborsOf v.1 v.2) →
    (∀ v ∈ visited, ∀ n ∈ neighborsOf v.1 v.2,
      inBounds n.1 n.2 = true → cellAt b n.1 n.2 = some color0 →
      n ∈ visited ∨ n ∈ stack) →
    ((inBounds start.1 start.2 = true ∧ cellAt b start.1 start.2 = some color0) →
      start ∈ visited ∨ start ∈ stack) →
    (∀ x ∈ group, x ∈ getGroupAux b (some color0) fuel visited group stack) ∧
    (∀ x ∈ getGroupAux b (some color0) fuel visited group stack,
      inBounds x.1 x.2 = true ∧ cellAt b x.1 x.2 = some color0 ∧
      SameColorConnected b color0 start x) ∧
    (∀ v ∈ getGroupAux b (some color0) fuel visited group stack,
      ∀ n ∈ neighborsOf v.1 v.2, inBounds n.1 n.2 = true →
      cellAt b n.1 n.2 = some color0 →
      n ∈ getGroupAux b (some color0) fuel visited group stack) ∧
    ((inBounds start.1 start.2 = true ∧ cellAt b start.1 start.2 = some color0) →
      start ∈ getGroupAux b (some color0) fuel visited group stack) := by
  intro fuel
  induction fuel with
  | zero =>
    intro visited group stack hlen hvg hnd hvis hstk hcl hst
    have hempty : stack = [] := by
      have hl0 : stack.length = 0 := by omega
      exact List.length_eq_zero.mp hl0
    subst hempty
    simp only [getGroupAux]
    refine ⟨fun x hx => hx, fun x hx => hvis x ((hvg x).mpr hx), ?_, ?_⟩
    · intro v hv n hn hb1 hc1
      rcases hcl v ((hvg v).mpr hv) n hn hb1 hc1 with h | h
      · exact (hvg n).mp h
      · exact absurd h (List.not_mem_nil n)
    · intro h
      rcases hst h with h' | h'
      · exact (hvg start).mp h'
      · exact absurd h' (List.not_mem_nil start)
  | succ fuel ih =>
    intro visited group stack hlen hvg hnd hvis hstk hcl hst
    match stack with
    | [] =>
      simp only [getGroupAux]
      refine ⟨fun x hx => hx, fun x hx => hvis x ((hvg x).mpr hx), ?_, ?_⟩
      · intro v hv n hn hb1 hc1
        rcases hcl v ((hvg v).mpr hv) n hn hb1 hc1 with h | h
        · exact (hvg n).mp h
        · exact absurd h (List.not_mem_nil n)
      · intro h
        rcases hst h with h' | h'
        · exact (hvg start).mp h'
        · exact absurd h' (List.not_mem_nil start)
    | (r, c) :: stack =>
      simp only [List.length_cons] at hlen
      by_cases hv : ((r, c) ∈ visited)
      · have hred : getGroupAux b (some color0) (fuel + 1) visited group
            ((r, c) :: stack) = getGroupAux b (some color0) fuel visited group
            stack := by
          simp only [getGroupAux, if_pos hv]
        rw [hred]
        apply ih visited group stack (by omega) hvg hnd hvis
        · exact fun w hw => hstk w (List.mem_cons_of_mem _ hw)
        · intro v' hv' n hn hb1 hc1
          rcases hcl v' hv' n hn hb1 hc1 with h | h
          · exact Or.inl h
          · rcases List.mem_cons.mp h with rfl | h'
            · exact Or.inl hv
            · exact Or.inr h'
        · intro h
          rcases hst h with h' | h'
          · exact Or.inl h'
          · rcases List.mem_cons.mp h' with heq | h''
            · exact Or.inl (heq ▸ hv)
            · exact Or.inr h''
      · by_cases hb1 : inBounds r c = true
        · by_cases hcol : cellAt b r c = some color0
          · -- visit (r, c)
            have hred : getGroupAux b (some color0) (fuel + 1) visited group
                ((r, c) :: stack) =
                getGroupAux b (some color0) fuel ((r, c) :: visited)
                  (group ++ [(r, c)])
                  ((r, c + 1) :: (r, c - 1) :: (r + 1, c) :: (r - 1, c) ::
                    stack) := by
              simp only [getGroupAux, if_neg hv, hb1, Bool.not_true, ne_eq,
                hcol, not_true_eq_false]
              simp
            rw [hred]
            have hnd' : ((r, c) :: visited).Nodup :=
              List.nodup_cons.mpr ⟨hv, hnd⟩
            have hconn : SameColorConnected b color0 start (r, c) := by
              rcases hstk (r, c) (List.mem_cons_self _ _) with heq | ⟨v', hv', hn⟩
              · rw [heq]
                exact Relation.ReflTransGen.refl
              · exact Relation.ReflTransGen.tail (hvis v' hv').2.2 ⟨hn, hb1, hcol⟩
            have hvis' : ∀ x ∈ (r, c) :: visited,
                inBounds x.1 x.2 = true ∧ cellAt b x.1 x.2 = some color0 ∧
                SameColorConnected b color0 start x := by
              intro x hx
              rcases List.mem_cons.mp hx with rfl | hx'
              · exact ⟨hb1, hcol, hconn⟩
              · exact hvis x hx'
            have hcnt : ((r, c) :: visited).length ≤ 81 :=
              nodup_inBounds_length_le _ hnd' (fun x hx => (hvis' x hx).1)
            have hres := ih ((r, c) :: visited) (group ++ [(r, c)])
              ((r, c + 1) :: (r, c - 1) :: (r + 1, c) :: (r - 1, c) :: stack)
              (by simp only [List.length_cons] at hcnt ⊢; omega)
              (by
                intro x
                rw [List.mem_cons, List.mem_append, List.mem_singleton, hvg x]
                tauto)
              hnd' hvis'
              (by
                intro w hw
                obtain ⟨hm1, hm2, hm3, hm4⟩ := mem_neighborsOf_self r c
                rcases List.mem_cons.mp hw with rfl | hw
                · exact Or.inr ⟨(r, c), (List.mem_cons_self _ _), hm4⟩
                rcases List.mem_cons.mp hw with rfl | hw
                · exact Or.inr ⟨(r, c), (List.mem_cons_self _ _), hm3⟩
                rcases List.mem_cons.mp hw with rfl | hw
                · exact Or.inr ⟨(r, c), (List.mem_cons_self _ _), hm2⟩
                rcases List.mem_cons.mp hw with rfl | hw
                · exact Or.inr ⟨(r, c), (List.mem_cons_self _ _), hm1⟩
                rcases hstk w (List.mem_cons_of_mem _ hw) with heq | ⟨v', hv', hn⟩
                · exact Or.inl heq
                · exact Or.inr ⟨v', List.mem_cons_of_mem _ hv', hn⟩)
              (by
                intro v' hv' n hn hbn hcn
                rcases List.mem_cons.mp hv' with rfl | hv'
                · right
                  simp only [neighborsOf, List.mem_cons, List.mem_singleton,
                    List.not_mem_nil, or_false] at hn
                  rcases hn with rfl | rfl | rfl | rfl
                  · exact List.mem_cons_of_mem _ (List.mem_cons_of_mem _
                      (List.mem_cons_of_mem _ (List.mem_cons_self _ _)))
                  · exact List.mem_cons_of_mem _ (List.mem_cons_of_mem _
                      (List.mem_cons_self _ _))
                  · exact List.mem_cons_of_mem _ (List.mem_cons_self _ _)
                  · exact (List.mem_cons_self _ _)
                · rcases hcl v' hv' n hn hbn hcn with h | h
                  · exact Or.inl (List.mem_cons_of_mem _ h)
                  · rcases List.mem_cons.mp h with rfl | h'
                    · exact Or.inl (List.mem_cons_self _ _)
                    · exact Or.inr (List.mem_cons_of_mem _
                        (List.mem_cons_of_mem _ (List.mem_cons_of_mem _
                          (List.mem_cons_of_mem _ h'))))
                )
              (by
                intro h
                rcases hst h with h' | h'
                · exact Or.inl (List.mem_cons_of_mem _ h')
                · rcases List.mem_cons.mp h' with heq | h''
                  · rw [heq]
                    exact Or.inl (List.mem_cons_self _ _)
                  · exact Or.inr (List.mem_cons_of_mem _
                      (List.mem_cons_of_mem _ (List.mem_cons_of_mem _
                        (List.mem_cons_of_mem _ h''))))
                )
            obtain ⟨hmono, hsound, hclosed, hstart⟩ := hres
            refine ⟨?_, hsound, hclosed, hstart⟩
            intro x hx
            exact hmono x (List.mem_append.mpr (Or.inl hx))
          · -- wrong colour: skip
            have hred : getGroupAux b (some color0) (fuel + 1) visited group
                ((r, c) :: stack) = getGroupAux b (some color0) fuel visited
                group stack := by
              simp only [getGroupAux, if_neg hv, hb1, Bool.not_true, ne_eq,
                hcol, not_false_eq_true]
              simp
            rw [hred]
            apply ih visited group stack (by omega) hvg hnd hvis
            · exact fun w hw => hstk w (List.mem_cons_of_mem _ hw)
            · intro v' hv' n hn hbn hcn
              rcases hcl v' hv' n hn hbn hcn with h | h
              · exact Or.inl h
              · rcases List.mem_cons.mp h with rfl | h'
                · exact absurd hcn hcol
                · exact Or.inr h'
            · intro h
              rcases hst h with h' | h'
              · exact Or.inl h'
              · rcases List.mem_cons.mp h' with heq | h''
                · exfalso
                  rw [heq] at h
                  have h2 : cellAt b r c = some color0 := h.2
                  exact hcol h2
                · exact Or.inr h''
        · -- out of bounds: skip
          have hred : getGroupAux b (some color0) (fuel + 1) visited group
              ((r, c) :: stack) = getGroupAux b (some color0) fuel visited
              group stack := by
            rw [Bool.not_eq_true] at hb1
            simp only [getGroupAux, if_neg hv, hb1, Bool.not_false]
            simp
          rw [hred]
          apply ih visited group stack (by omega) hvg hnd hvis
          · exact fun w hw => hstk w (List.mem_cons_of_mem _ hw)
          · intro v' hv' n hn hbn hcn
            rcases hcl v' hv' n hn hbn hcn with h | h
            · exact Or.inl h
            · rcases List.mem_cons.mp h with rfl | h'
              · exact absurd hbn hb1
              · exact Or.inr h'
          · intro h
            rcases hst h with h' | h'
            · exact Or.inl h'
            · rcases List.mem_cons.mp h' with heq | h''
              · exfalso
                rw [heq] at h
                have h1 : inBounds r c = true := h.1
                rw [h1] at hb1
                exact absurd hb1 (by decide)
              · exact Or.inr h''

theorem mem_neighborsOf_symm (p q : Int × Int) :
    q ∈ neighborsOf p.1 p.2 ↔ p ∈ neighborsOf q.1 q.2 := by
  obtain ⟨a, b⟩ := p
  obtain ⟨x, y⟩ := q
  simp only [neighborsOf, List.mem_cons, List.not_mem_nil, or_false,
    Prod.mk.injEq]
  omega

theorem scc_endpoint (b : Board) (col : ACell) (p q : Int × Int)
    (h : SameColorConnected b col p q) :
    q = p ∨ (inBounds q.1 q.2 = true ∧ cellAt b q.1 q.2 = some col) := by
  induction h with
  | refl => exact Or.inl rfl
  | tail hconn hstep ih => exact Or.inr ⟨hstep.2.1, hstep.2.2⟩

theorem scc_symm (b : Board) (col : ACell) (p : Int × Int)
    (hp : inBounds p.1 p.2 = true ∧ cellAt b p.1 p.2 = some col)
    (q : Int × Int) (h : SameColorConnected b col p q) :
    SameColorConnected b col q p := by
  induction h with
  | refl => exact Relation.ReflTransGen.refl
  | @tail m x hconn hstep ih =>
    have hm : inBounds m.1 m.2 = true ∧ cellAt b m.1 m.2 = some col := by
      rcases scc_endpoint b col p m hconn with rfl | hf
      · exact hp
      · exact hf
    exact Relation.ReflTransGen.head
      ⟨(mem_neighborsOf_symm m x).mp hstep.1, hm.1, hm.2⟩ ih

theorem groupLiberty_transfer (b : Board) (col : ACell) (m x : Int × Int)
    (hm : inBounds m.1 m.2 = true ∧ cellAt b m.1 m.2 = some col)
    (hconn : SameColorConnected b col m x) :
    (GroupHasLiberty b col x ↔ GroupHasLiberty b col m) := by
  constructor
  · rintro ⟨q, hq, e, he, h1, h2⟩
    exact ⟨q, Relation.ReflTransGen.trans hconn hq, e, he, h1, h2⟩
  · rintro ⟨q, hq, e, he, h1, h2⟩
    exact ⟨q, Relation.ReflTransGen.trans (scc_symm b col m hm x hconn) hq,
      e, he, h1, h2⟩

theorem getGroup_mem_iff (b : Board) (r c : Int) (color0 : ACell)
    (hcol0 : cellAt b r c = some color0) (hne : color0 ≠ .empty)
    (hin : inBounds r c = true) (x : Int × Int) :
    x ∈ getGroup b r c ↔
      inBounds x.1 x.2 = true ∧ cellAt b x.1 x.2 = some color0 ∧
        SameColorConnected b color0 (r, c) x := by
  unfold getGroup
  rw [hcol0]
  have hbeq : (some color0 == some ACell.empty) = false := by
    simp only [beq_eq_false_iff_ne, ne_eq, Option.some.injEq]
    exact hne
  simp only [hbeq, Bool.false_eq_true, if_false]
  have hspec := getGroupAux_spec b color0 (r, c) groupFuel [] [] [(r, c)]
    (by norm_num [groupFuel, boardSize])
    (fun x => Iff.rfl)
    List.nodup_nil
    (fun x hx => absurd hx (List.not_mem_nil x))
    (by
      intro w hw
      rcases List.mem_cons.mp hw with rfl | h0
      · exact Or.inl rfl
      · exact absurd h0 (List.not_mem_nil w))
    (fun v hv => absurd hv (List.not_mem_nil v))
    (fun _ => Or.inr (List.mem_cons_self _ _))
  obtain ⟨hmono, hsound, hclosed, hstart⟩ := hspec
  constructor
  · exact fun hx => hsound x hx
  · rintro ⟨hbx, hcx, hconn⟩
    clear hbx hcx
    induction hconn with
    | refl => exact hstart ⟨hin, hcol0⟩
    | @tail m y hconn hstep ih =>
      exact hclosed m ih y hstep.1 hstep.2.1 hstep.2.2

theorem countLib_getGroup_zero_iff (b : Board) (r c : Int) (color0 : ACell)
    (hcol0 : cellAt b r c = some color0) (hne : color0 ≠ .empty)
    (hin : inBounds r c = true) :
    (countLiberties b (getGroup b r c) = 0 ↔
      ¬ GroupHasLiberty b color0 (r, c)) := by
  rw [countLiberties_eq_zero_iff]
  constructor
  · rintro h ⟨q, hq, e, he, h1, h2⟩
    have hqfacts : inBounds q.1 q.2 = true ∧ cellAt b q.1 q.2 = some color0 := by
      rcases scc_endpoint b color0 (r, c) q hq with rfl | hf
      · exact ⟨hin, hcol0⟩
      · exact hf
    have hqmem : q ∈ getGroup b r c :=
      (getGroup_mem_iff b r c color0 hcol0 hne hin q).mpr
        ⟨hqfacts.1, hqfacts.2, hq⟩
    exact h q hqmem e he ⟨h1, h2⟩
  · intro h q hq e he hcontra
    have := (getGroup_mem_iff b r c color0 hcol0 hne hin q).mp hq
    exact h ⟨q, this.2.2, e, he, hcontra.1, hcontra.2⟩

theorem adjGroupsGo_capture_iff (b : Board) (color0 : ACell)
    (hne : color0 ≠ .empty) (ns : List (Int × Int)) :
    ∀ (seen : List (Int × Int)),
    (∀ x ∈ seen, inBounds x.1 x.2 = true ∧ cellAt b x.1 x.2 = some color0 ∧
      GroupHasLiberty b color0 x) →
    (((adjGroupsGo b color0 ns seen).any
        (fun g => countLiberties b g == 0)) = true ↔
      ∃ n ∈ ns, inBounds n.1 n.2 = true ∧ cellAt b n.1 n.2 = some color0 ∧
        ¬ GroupHasLiberty b color0 n) := by
  induction ns with
  | nil =>
    intro seen hseen
    simp [adjGroupsGo]
  | cons n ns ih =>
    intro seen hseen
    obtain ⟨r, c⟩ := n
    by_cases hb1 : inBounds r c = true
    · by_cases hcol : cellAt b r c = some color0
      · by_cases hsn : ((r, c) ∈ seen)
        · have hred : adjGroupsGo b color0 ((r, c) :: ns) seen =
              adjGroupsGo b color0 ns seen := by
            simp only [adjGroupsGo, hb1, Bool.not_true, ne_eq, hcol,
              not_true_eq_false, if_pos hsn]
            simp
          rw [hred, ih seen hseen]
          constructor
          · rintro ⟨m, hm, hf⟩
            exact ⟨m, List.mem_cons_of_mem _ hm, hf⟩
          · rintro ⟨m, hm, hf1, hf2, hf3⟩
            rcases List.mem_cons.mp hm with rfl | hm'
            · exact absurd (hseen _ hsn).2.2 hf3
            · exact ⟨m, hm', hf1, hf2, hf3⟩
        · have hred : adjGroupsGo b color0 ((r, c) :: ns) seen =
              getGroup b r c ::
                adjGroupsGo b color0 ns (seen ++ getGroup b r c) := by
            simp only [adjGroupsGo, hb1, Bool.not_true, ne_eq, hcol,
              not_true_eq_false, if_neg hsn]
            simp
          rw [hred]
          rw [List.any_cons]
          by_cases hz : countLiberties b (getGroup b r c) = 0
          · have hnl : ¬ GroupHasLiberty b color0 (r, c) :=
              (countLib_getGroup_zero_iff b r c color0 hcol hne hb1).mp hz
            simp only [hz, beq_self_eq_true, Bool.true_or, true_iff]
            exact ⟨(r, c), List.mem_cons_self _ _, hb1, hcol, hnl⟩
          · have hlib : GroupHasLiberty b color0 (r, c) := by
              by_contra hcon
              exact hz
                ((countLib_getGroup_zero_iff b r c color0 hcol hne hb1).mpr hcon)
            have hseen' : ∀ x ∈ seen ++ getGroup b r c,
                inBounds x.1 x.2 = true ∧ cellAt b x.1 x.2 = some color0 ∧
                GroupHasLiberty b color0 x := by
              intro x hx
              rcases List.mem_append.mp hx with hx' | hx'
              · exact hseen x hx'
              · have hfx :=
                  (getGroup_mem_iff b r c color0 hcol hne hb1 x).mp hx'
                refine ⟨hfx.1, hfx.2.1, ?_⟩
                exact (groupLiberty_transfer b color0 (r, c) x ⟨hb1, hcol⟩
                  hfx.2.2).mpr hlib
            have hbz : (countLiberties b (getGroup b r c) == 0) = false := by
              simp only [beq_eq_false_iff_ne, ne_eq]
              exact hz
            rw [hbz]
            simp only [Bool.false_or]
            rw [ih (seen ++ getGroup b r c) hseen']
            constructor
            · rintro ⟨m, hm, hf⟩
              exact ⟨m, List.mem_cons_of_mem _ hm, hf⟩
            · rintro ⟨m, hm, hf1, hf2, hf3⟩
              rcases List.mem_cons.mp hm with rfl | hm'
              · exact absurd hlib hf3
              · exact ⟨m, hm', hf1, hf2, hf3⟩
      · have hred : adjGroupsGo b color0 ((r, c) :: ns) seen =
            adjGroupsGo b color0 ns seen := by
          simp only [adjGroupsGo, hb1, Bool.not_true, ne_eq, hcol,
            not_false_eq_true]
          simp
        rw [hred, ih seen hseen]
        constructor
        · rintro ⟨m, hm, hf⟩
          exact ⟨m, List.mem_cons_of_mem _ hm, hf⟩
        · rintro ⟨m, hm, hf1, hf2, hf3⟩
          rcases List.mem_cons.mp hm with rfl | hm'
          · exact absurd hf2 hcol
          · exact ⟨m, hm', hf1, hf2, hf3⟩
    · have hred : adjGroupsGo b color0 ((r, c) :: ns) seen =
          adjGroupsGo b color0 ns seen := by
        rw [Bool.not_eq_true] at hb1
        simp only [adjGroupsGo, hb1, Bool.not_false]
        simp
      rw [hred, ih seen hseen]
      constructor
      · rintro ⟨m, hm, hf⟩
        exact ⟨m, List.mem_cons_of_mem _ hm, hf⟩
      · rintro ⟨m, hm, hf1, hf2, hf3⟩
        rcases List.mem_cons.mp hm with rfl | hm'
        · exact absurd hf1 hb1
        · exact ⟨m, hm', hf1, hf2, hf3⟩

theorem colorOf_ne_empty (p : PlayerRole) : colorOf p ≠ .empty := by
  cases p <;> simp [colorOf]

theorem oppColorOf_ne_empty (c : ACell) : oppColorOf c ≠ .empty := by
  cases c <;> simp [oppColorOf]

/-- C7: a non-pass placement validates exactly when the game is not
terminal, it is the mover's turn, the cell is in bounds and empty, and
either some orthogonally adjacent opposing group ends with zero liberties
or the placed stone's own group keeps at least one liberty. -/
theorem atari_validate_iff (s : AState) (m : AMove) (p : PlayerRole)
    (hpass : m.pass = false) (hwf : WellFormed s.board) :
    validateMove s m p = true ↔ LegalStoneSpec s m p := by
  have hb9 : ((boardSize : Nat) : Int) = 9 := rfl
  unfold validateMove LegalStoneSpec
  rw [hpass]
  simp only [Bool.false_eq_true, if_false]
  split_ifs with h1 h2 h3 h5 hwc
  · simp only [Bool.false_eq_true, false_iff]
    intro hspec
    exact h1 hspec.1
  · simp only [Bool.false_eq_true, false_iff]
    intro hspec
    exact h2 hspec.2.1
  · simp only [Bool.false_eq_true, false_iff]
    intro hspec
    obtain ⟨-, -, ⟨hb1, hb2, hb3, hb4⟩, -⟩ := hspec
    simp only [Bool.or_eq_true, decide_eq_true_eq] at h3
    rcases h3 with ((h3 | h3) | h3) | h3 <;> omega
  · simp only [Bool.false_eq_true, false_iff]
    intro hspec
    exact h5 hspec.2.2.2.1
  · push_neg at h1 h2 h5
    have hin : inBounds m.row m.col = true := by
      rw [inBounds_iff]
      simp only [Bool.or_eq_true, decide_eq_true_eq, not_or] at h3
      refine ⟨?_, ?_, ?_, ?_⟩ <;> omega
    have hbounds : 0 ≤ m.row ∧ m.row < 9 ∧ 0 ≤ m.col ∧ m.col < 9 :=
      (inBounds_iff m.row m.col).mp hin
    have hcap := adjGroupsGo_capture_iff
      (setCell s.board m.row m.col (colorOf p)) (oppColorOf (colorOf p))
      (oppColorOf_ne_empty (colorOf p)) (neighborsOf m.row m.col) []
      (fun x hx => absurd hx (List.not_mem_nil x))
    simp only [true_iff]
    refine ⟨h1, h2, hbounds, h5, Or.inl ?_⟩
    exact hcap.mp hwc
  · push_neg at h1 h2 h5
    have hin : inBounds m.row m.col = true := by
      rw [inBounds_iff]
      simp only [Bool.or_eq_true, decide_eq_true_eq, not_or] at h3
      refine ⟨?_, ?_, ?_, ?_⟩ <;> omega
    have hbounds : 0 ≤ m.row ∧ m.row < 9 ∧ 0 ≤ m.col ∧ m.col < 9 :=
      (inBounds_iff m.row m.col).mp hin
    have hcellb : cellAt (setCell s.board m.row m.col (colorOf p)) m.row m.col
        = some (colorOf p) :=
      cellAt_setCell_self s.board hwf m.row m.col hin (colorOf p)
    have hcap := adjGroupsGo_capture_iff
      (setCell s.board m.row m.col (colorOf p)) (oppColorOf (colorOf p))
      (oppColorOf_ne_empty (colorOf p)) (neighborsOf m.row m.col) []
      (fun x hx => absurd hx (List.not_mem_nil x))
    have hown := countLib_getGroup_zero_iff
      (setCell s.board m.row m.col (colorOf p)) m.row m.col (colorOf p)
      hcellb (colorOf_ne_empty p) hin
    simp only [decide_eq_true_eq]
    constructor
    · intro hpos
      refine ⟨h1, h2, hbounds, h5, Or.inr ?_⟩
      by_contra hnl
      rw [← hown] at hnl
      omega
    · rintro ⟨-, -, -, -, hcaptureOrLib⟩
      rcases hcaptureOrLib with hcapture | hlib
      · exact absurd (hcap.mpr hcapture) hwc
      · have hnz : ¬ (countLiberties (setCell s.board m.row m.col (colorOf p))
            (getGroup (setCell s.board m.row m.col (colorOf p)) m.row m.col)
              = 0) := fun h0 => (hown.mp h0) hlib
        omega

/-- C7 witness: the concrete capture scenario satisfies the hypotheses of
`atari_validate_iff`, and the placement indeed validates. -/
theorem atari_validate_iff_witness :
    captureMove.pass = false ∧ WellFormed captureState.board ∧
      (validateMove captureState captureMove .player1 = true ↔
        LegalStoneSpec captureState captureMove .player1) :=
  ⟨rfl, ⟨rfl, by decide⟩,
    atari_validate_iff captureState captureMove .player1 rfl ⟨rfl, by decide⟩⟩

end AtariGo
namespace GameSession

lemma submitMove_eq_of_none {S M : Type} (e : EngineI S M)
    (ss : Sessions S M) (sid playerId : Nat) (playerRole : PlayerRole)
    (move : M) (hs : sessGet ss sid = none) :
    submitMove e ss sid playerId playerRole move =
      (.err .sessionNotFound, ss) := by
  unfold submitMove
  rw [hs]

lemma submitMove_eq_of_finished {S M : Type} (e : EngineI S M)
    (ss : Sessions S M) (sid playerId : Nat) (playerRole : PlayerRole)
    (move : M) (s : Session S M) (hs : sessGet ss sid = some s)
    (hf : s.isFinished = true) :
    submitMove e ss sid playerId playerRole move =
      (.err .gameFinished, ss) := by
  unfold submitMove
  rw [hs]
  simp [hf]

lemma submitMove_eq_of_turn {S M : Type} (e : EngineI S M)
    (ss : Sessions S M) (sid playerId : Nat) (playerRole : PlayerRole)
    (move : M) (s : Session S M) (hs : sessGet ss sid = some s)
    (hf : s.isFinished = false) (ht : s.currentTurn ≠ playerRole) :
    submitMove e ss sid playerId playerRole move =
      (.err .notYourTurn, ss) := by
  unfold submitMove
  rw [hs]
  simp [hf, ht]

lemma submitMove_eq_of_invalid {S M : Type} (e : EngineI S M)
    (ss : Sessions S M) (sid playerId : Nat) (playerRole : PlayerRole)
    (move : M) (s : Session S M) (hs : sessGet ss sid = some s)
    (hf : s.isFinished = false) (ht : s.currentTurn = playerRole)
    (hv : e.validateMove s.state move playerRole = false) :
    submitMove e ss sid playerId playerRole move =
      (.err .invalidMove, ss) := by
  unfold submitMove
  rw [hs]
  simp [hf, ht, hv]

lemma submitMove_fst_of_valid {S M : Type} (e : EngineI S M)
    (ss : Sessions S M) (sid playerId : Nat) (playerRole : PlayerRole)
    (move : M) (s : Session S M) (hs : sessGet ss sid = some s)
    (hf : s.isFinished = false) (ht : s.currentTurn = playerRole)
    (hv : e.validateMove s.state move playerRole = true) :
    ∀ er, (submitMove e ss sid playerId playerRole move).1 ≠ .err er := by
  intro er
  unfold submitMove
  rw [hs]
  simp only [hf, Bool.false_eq_true, if_false, ht, ne_eq,
    not_true_eq_false, if_false, hv, Bool.not_true]
  by_cases hover : e.isGameOver (e.applyMove s.state move playerRole)
  · simp [hover]
  · simp [hover]

/-- C8: whenever `submitMove` reports an error (session missing, game
finished, wrong turn, or the engine rejecting the move) the session store
is returned exactly as it was — state, turn, finished flag and moves log
included — and a move that fails `validateMove` is always answered with
`invalidMove` before `applyMove` could be reached. -/
theorem submitMove_error_pure {S M : Type} (e : EngineI S M)
    (ss : Sessions S M) (sid playerId : Nat) (playerRole : PlayerRole)
    (move : M) :
    (∀ er, (submitMove e ss sid playerId playerRole move).1 =
        .err er →
      (submitMove e ss sid playerId playerRole move).2 = ss) ∧
    (∀ s, sessGet ss sid = some s → s.isFinished = false →
      s.currentTurn = playerRole →
      e.validateMove s.state move playerRole = false →
      (submitMove e ss sid playerId playerRole move).1 =
        .err .invalidMove ∧
      (submitMove e ss sid playerId playerRole move).2 = ss) := by
  constructor
  · intro er herr
    cases hs : sessGet ss sid with
    | none =>
      rw [submitMove_eq_of_none e ss sid playerId playerRole move hs]
    | some s =>
      cases hf : s.isFinished with
      | true =>
        rw [submitMove_eq_of_finished e ss sid playerId playerRole move s hs hf]
      | false =>
        by_cases ht : s.currentTurn = playerRole
        · cases hv : e.validateMove s.state move playerRole with
          | false =>
            rw [submitMove_eq_of_invalid e ss sid playerId playerRole move s
              hs hf ht hv]
          | true =>
            exact absurd herr
              (submitMove_fst_of_valid e ss sid playerId playerRole move s
                hs hf ht hv er)
        · rw [submitMove_eq_of_turn e ss sid playerId playerRole move s hs hf ht]
  · intro s hs hf ht hval
    rw [submitMove_eq_of_invalid e ss sid playerId playerRole move s hs hf ht
      hval]
    exact ⟨rfl, rfl⟩

/-- C8 witness: a store holding one unfinished session whose engine rejects
every move; `submitMove` reports `invalidMove` and returns the store
untouched. -/
theorem submitMove_error_pure_witness :
    sessGet [(1, unitSession)] 1 = some unitSession ∧
    unitSession.isFinished = false ∧
    unitSession.currentTurn = .player1 ∧
    unitEngine.validateMove unitSession.state () .player1 = false ∧
    ((submitMove unitEngine [(1, unitSession)] 1 5 .player1 ()).1 =
        .err .invalidMove ∧
      (submitMove unitEngine [(1, unitSession)] 1 5 .player1 ()).2 =
        [(1, unitSession)]) :=
  ⟨rfl, rfl, rfl, rfl,
    (submitMove_error_pure unitEngine [(1, unitSession)] 1 5 .player1 ()).2
      unitSession rfl rfl rfl rfl⟩

end GameSession

namespace Tournament

/-- C3 counterexample: in a tournament that is already `running`, `addPlayer`
with the id of a player who is present returns `null` and leaves the
tournament untouched — the phase guard fires before the reconnection branch,
so reconnection is not phase-independent. -/
theorem addPlayer_reconnect_not_phase_free_cex :
    playersGet c3T.players 7 = some c3Player ∧
    c3T.phase = .running ∧
    addPlayer c3T 3 none (some 7) 99 = (none, c3T) :=
  ⟨rfl, rfl, rfl⟩

/-- C3 (amended): `addPlayer` is phase-gated before anything else: outside
registration it returns `null` and changes nothing, even for a present
`existingPlayerId`; in registration it marks a present `existingPlayerId`
online and returns that player, and otherwise inserts a fresh player. -/
theorem addPlayer_phase_gated (t : Tournament) (name : Nat)
    (classId : Option Nat) (existingPlayerId : Option Nat) (newId : Nat) :
    (t.phase ≠ .registration →
      addPlayer t name classId existingPlayerId newId = (none, t)) ∧
    (t.phase = .registration →
      (∀ pid p, existingPlayerId = some pid →
        playersGet t.players pid = some p →
        addPlayer t name classId existingPlayerId newId =
          (some { p with isOnline := true },
            { t with players :=
                playersSet t.players pid { p with isOnline := true } })) ∧
      ((existingPlayerId = none ∨
          ∃ pid, existingPlayerId = some pid ∧
            playersGet t.players pid = none) →
        addPlayer t name classId existingPlayerId newId =
          (some (freshPlayer newId name classId),
            { t with players :=
                playersSet t.players newId (freshPlayer newId name classId) }))) := by
  constructor
  · intro h
    unfold addPlayer
    rw [if_pos h]
  · intro hreg
    constructor
    · intro pid p hpid hget
      subst hpid
      simp [addPlayer, hreg, hget]
    · intro hfresh
      rcases hfresh with hnone | ⟨pid, hpid, hget⟩
      · subst hnone
        simp [addPlayer, hreg]
      · subst hpid
        simp [addPlayer, hreg, hget]

/-- C3 witness: the three branches of the amended statement at concrete
tournaments — a running one (rejected), and a registration one for
reconnection and for a fresh insert. -/
theorem addPlayer_phase_gated_witness :
    addPlayer c3T 3 none (some 7) 99 = (none, c3T) ∧
    addPlayer c3Reg 3 none (some 7) 99 =
      (some { c3Player with isOnline := true },
        { c3Reg with players :=
            playersSet c3Reg.players 7 { c3Player with isOnline := true } }) ∧
    addPlayer c3Reg 3 none none 99 =
      (some (freshPlayer 99 3 none),
        { c3Reg with players :=
            playersSet c3Reg.players 99 (freshPlayer 99 3 none) }) :=
  ⟨(addPlayer_phase_gated c3T 3 none (some 7) 99).1 (by decide),
    ((addPlayer_phase_gated c3Reg 3 none (some 7) 99).2 rfl).1 7 c3Player rfl rfl,
    ((addPlayer_phase_gated c3Reg 3 none none 99).2 rfl).2 (Or.inl rfl)⟩

end Tournament

namespace Tournament

-- Field accounting for the two match mutations of recordGameResult.

@[simp] lemma finishedMatch_id (m : Match) (r : Option Nat) :
    (finishedMatch m r).id = m.id := by
  unfold finishedMatch; split_ifs <;> rfl

@[simp] lemma finishedMatch_bestOf (m : Match) (r : Option Nat) :
    (finishedMatch m r).bestOf = m.bestOf := by
  unfold finishedMatch; split_ifs <;> rfl

@[simp] lemma finishedMatch_player1Id (m : Match) (r : Option Nat) :
    (finishedMatch m r).player1Id = m.player1Id := by
  unfold finishedMatch; split_ifs <;> rfl

@[simp] lemma finishedMatch_player2Id (m : Match) (r : Option Nat) :
    (finishedMatch m r).player2Id = m.player2Id := by
  unfold finishedMatch; split_ifs <;> rfl

@[simp] lemma finishedMatch_winnerGoesTo (m : Match) (r : Option Nat) :
    (finishedMatch m r).winnerGoesToMatchId = m.winnerGoesToMatchId := by
  unfold finishedMatch; split_ifs <;> rfl

@[simp] lemma finishedMatch_loserGoesTo (m : Match) (r : Option Nat) :
    (finishedMatch m r).loserGoesToMatchId = m.loserGoesToMatchId := by
  unfold finishedMatch; split_ifs <;> rfl

@[simp] lemma finishedMatch_phase (m : Match) (r : Option Nat) :
    (finishedMatch m r).phase = .finished := by
  unfold finishedMatch; split_ifs <;> rfl

@[simp] lemma finishedMatch_score (m : Match) (r : Option Nat) :
    (finishedMatch m r).score = updatedScore m r := by
  unfold finishedMatch; split_ifs <;> rfl

@[simp] lemma finishedMatch_currentGame (m : Match) (r : Option Nat) :
    (finishedMatch m r).currentGame = m.currentGame := by
  unfold finishedMatch; split_ifs <;> rfl

@[simp] lemma finishedMatch_who (m : Match) (r : Option Nat) :
    (finishedMatch m r).whoStartsCurrentGame = m.whoStartsCurrentGame := by
  unfold finishedMatch; split_ifs <;> rfl

@[simp] lemma nextGameMatch_id (m : Match) (r : Option Nat) :
    (nextGameMatch m r).id = m.id := rfl

@[simp] lemma nextGameMatch_bestOf (m : Match) (r : Option Nat) :
    (nextGameMatch m r).bestOf = m.bestOf := rfl

@[simp] lemma nextGameMatch_player1Id (m : Match) (r : Option Nat) :
    (nextGameMatch m r).player1Id = m.player1Id := rfl

@[simp] lemma nextGameMatch_player2Id (m : Match) (r : Option Nat) :
    (nextGameMatch m r).player2Id = m.player2Id := rfl

@[simp] lemma nextGameMatch_winnerGoesTo (m : Match) (r : Option Nat) :
    (nextGameMatch m r).winnerGoesToMatchId = m.winnerGoesToMatchId := rfl

@[simp] lemma nextGameMatch_loserGoesTo (m : Match) (r : Option Nat) :
    (nextGameMatch m r).loserGoesToMatchId = m.loserGoesToMatchId := rfl

@[simp] lemma nextGameMatch_phase (m : Match) (r : Option Nat) :
    (nextGameMatch m r).phase = m.phase := rfl

@[simp] lemma nextGameMatch_score (m : Match) (r : Option Nat) :
    (nextGameMatch m r).score = updatedScore m r := rfl

@[simp] lemma nextGameMatch_currentGame (m : Match) (r : Option Nat) :
    (nextGameMatch m r).currentGame = m.currentGame + 1 := rfl

@[simp] lemma nextGameMatch_who (m : Match) (r : Option Nat) :
    (nextGameMatch m r).whoStartsCurrentGame = flipStart m.whoStartsCurrentGame :=
  rfl

@[simp] lemma recordStep_id (m : Match) (r : Option Nat) :
    (recordStep m r).id = m.id := by
  unfold recordStep; split_ifs <;> simp

@[simp] lemma recordStep_bestOf (m : Match) (r : Option Nat) :
    (recordStep m r).bestOf = m.bestOf := by
  unfold recordStep; split_ifs <;> simp

@[simp] lemma recordStep_player1Id (m : Match) (r : Option Nat) :
    (recordStep m r).player1Id = m.player1Id := by
  unfold recordStep; split_ifs <;> simp

@[simp] lemma recordStep_player2Id (m : Match) (r : Option Nat) :
    (recordStep m r).player2Id = m.player2Id := by
  unfold recordStep; split_ifs <;> simp

@[simp] lemma recordStep_winnerGoesTo (m : Match) (r : Option Nat) :
    (recordStep m r).winnerGoesToMatchId = m.winnerGoesToMatchId := by
  unfold recordStep; split_ifs <;> simp

@[simp] lemma recordStep_loserGoesTo (m : Match) (r : Option Nat) :
    (recordStep m r).loserGoesToMatchId = m.loserGoesToMatchId := by
  unfold recordStep; split_ifs <;> simp

-- The single-match tournament: one recordGameResult call acts on the match
-- exactly as recordStep.

lemma getMatch_single_self (m : Match) :
    getMatch (singleMatchT m) m.id = some m := by
  simp [getMatch, allMatches, singleMatchT, List.find?]

lemma getMatch_single_ne (m : Match) (mid : Nat) (h : mid ≠ m.id) :
    getMatch (singleMatchT m) mid = none := by
  have hbe : (m.id == mid) = false := beq_eq_false_iff_ne.mpr (Ne.symm h)
  simp [getMatch, allMatches, singleMatchT, List.find?, hbe]

lemma updateMatch_single (m : Match) (f : Match → Match) :
    updateMatch (singleMatchT m) m.id f = singleMatchT (f m) := by
  simp [updateMatch, singleMatchT]

lemma advanceW_single (m1 : Match)
    (hw : m1.winnerGoesToMatchId ≠ some m1.id) :
    advanceW (singleMatchT m1) m1 = singleMatchT m1 := by
  unfold advanceW
  cases hg : m1.winnerGoesToMatchId with
  | none => cases m1.winnerId <;> rfl
  | some g =>
    cases m1.winnerId with
    | none => rfl
    | some w =>
      show advanceWinner (singleMatchT m1) w g = singleMatchT m1
      unfold advanceWinner
      rw [getMatch_single_ne m1 g fun he => hw (by rw [hg, he])]

lemma advanceL_single (m1 : Match)
    (hl : m1.loserGoesToMatchId ≠ some m1.id) :
    advanceL (singleMatchT m1) m1 = singleMatchT m1 := by
  unfold advanceL
  cases hg : m1.loserGoesToMatchId with
  | none => cases m1.loserId <;> rfl
  | some g =>
    cases m1.loserId with
    | none => rfl
    | some l =>
      show advanceLoser (singleMatchT m1) l g = singleMatchT m1
      unfold advanceLoser
      rw [getMatch_single_ne m1 g fun he => hl (by rw [hg, he])]

lemma recordGameResult_single (m : Match) (g : Nat) (r : Option Nat)
    (hw : m.winnerGoesToMatchId ≠ some m.id)
    (hl : m.loserGoesToMatchId ≠ some m.id) :
    (recordGameResult (singleMatchT m) m.id g r).2 =
      singleMatchT (recordStep m r) := by
  unfold recordGameResult recordStep
  simp only [getMatch_single_self]
  by_cases hfin : winsNeeded m ≤ (updatedScore m r).player1Wins ∨
      winsNeeded m ≤ (updatedScore m r).player2Wins
  · rw [if_pos hfin, if_pos hfin]
    unfold recordFinished
    rw [updateMatch_single]
    have hw1 : (finishedMatch m r).winnerGoesToMatchId ≠
        some (finishedMatch m r).id := by
      rw [finishedMatch_winnerGoesTo, finishedMatch_id]; exact hw
    have hl1 : (finishedMatch m r).loserGoesToMatchId ≠
        some (finishedMatch m r).id := by
      rw [finishedMatch_loserGoesTo, finishedMatch_id]; exact hl
    rw [advanceW_single (finishedMatch m r) hw1,
      advanceL_single (finishedMatch m r) hl1]
    rfl
  · rw [if_neg hfin, if_neg hfin, updateMatch_single]

lemma foldRecord_single (results : List (Option Nat)) (m : Match)
    (hw : m.winnerGoesToMatchId ≠ some m.id)
    (hl : m.loserGoesToMatchId ≠ some m.id) :
    results.foldl (fun t r => (recordGameResult t m.id 1 r).2)
        (singleMatchT m) =
      singleMatchT (results.foldl recordStep m) := by
  induction results generalizing m with
  | nil => rfl
  | cons r rest ih =>
    simp only [List.foldl_cons]
    rw [recordGameResult_single m 1 r hw hl]
    have hid : (recordStep m r).id = m.id := recordStep_id m r
    rw [← hid]
    exact ih (recordStep m r)
      (by rw [recordStep_winnerGoesTo, hid]; exact hw)
      (by rw [recordStep_loserGoesTo, hid]; exact hl)

lemma foldl_recordStep_id (results : List (Option Nat)) (m : Match) :
    (results.foldl recordStep m).id = m.id := by
  induction results generalizing m with
  | nil => rfl
  | cons r rest ih => rw [List.foldl_cons, ih, recordStep_id]

lemma matchAfter_eq (m : Match) (results : List (Option Nat))
    (hw : m.winnerGoesToMatchId ≠ some m.id)
    (hl : m.loserGoesToMatchId ≠ some m.id) :
    matchAfter m results = some (results.foldl recordStep m) := by
  unfold matchAfter
  rw [foldRecord_single results m hw hl]
  have hid : (results.foldl recordStep m).id = m.id :=
    foldl_recordStep_id results m
  rw [← hid]
  exact getMatch_single_self _

end Tournament

namespace Tournament

lemma updatedScore_cases (m : Match) (r : Option Nat) (w1 w2 : Nat)
    (hp1 : m.player1Id = some w1) (hp2 : m.player2Id = some w2)
    (hne : w1 ≠ w2) (hr : r = some w1 ∨ r = some w2) :
    (updatedScore m r).player1Wins = m.score.player1Wins + 1 ∧
      (updatedScore m r).player2Wins = m.score.player2Wins ∨
    (updatedScore m r).player1Wins = m.score.player1Wins ∧
      (updatedScore m r).player2Wins = m.score.player2Wins + 1 := by
  rcases hr with hr | hr
  · left
    subst hr
    unfold updatedScore
    rw [hp1, if_pos rfl]
    exact ⟨rfl, rfl⟩
  · right
    subst hr
    unfold updatedScore
    rw [hp1, hp2,
      if_neg (fun hh : some w2 = some w1 => hne (Option.some.inj hh).symm),
      if_pos rfl]
    exact ⟨rfl, rfl⟩

lemma recordStep_C4Inv (mid w1 w2 : Nat) (m : Match) (r : Option Nat)
    (hne : w1 ≠ w2) (hInv : C4Inv mid w1 w2 m)
    (hr : r = some w1 ∨ r = some w2) :
    C4Inv mid w1 w2 (recordStep m r) := by
  obtain ⟨hid, hbo, hp1, hp2, hwg, hlg, hiff, hbound⟩ := hInv
  have hwn : winsNeeded m = 2 := by rw [winsNeeded, hbo]
  have hsc := updatedScore_cases m r w1 w2 hp1 hp2 hne hr
  unfold recordStep
  split_ifs with hfin
  · refine ⟨by simpa using hid, by simpa using hbo, by simpa using hp1,
      by simpa using hp2, by simpa using hwg, by simpa using hlg, ?_, ?_⟩
    · rw [hwn] at hfin
      simpa using hfin
    · intro hcon
      exact absurd (finishedMatch_phase m r) hcon
  · rw [hwn] at hfin
    push_neg at hfin
    have hnf : m.phase ≠ .finished := by
      intro hf
      rcases hiff.mp hf with h2 | h2
      · rcases hsc with ⟨ha, _⟩ | ⟨ha, _⟩ <;> omega
      · rcases hsc with ⟨_, hb⟩ | ⟨_, hb⟩ <;> omega
    obtain ⟨hb1, hb2, hcg⟩ := hbound hnf
    refine ⟨by simpa using hid, by simpa using hbo, by simpa using hp1,
      by simpa using hp2, by simpa using hwg, by simpa using hlg, ?_, ?_⟩
    · simp only [nextGameMatch_phase, nextGameMatch_score]
      constructor
      · intro hf
        exact absurd hf hnf
      · intro h2
        omega
    · intro _
      simp only [nextGameMatch_score, nextGameMatch_currentGame]
      rcases hsc with ⟨ha, hb⟩ | ⟨ha, hb⟩ <;> omega

lemma foldl_recordStep_C4Inv (mid w1 w2 : Nat) (results : List (Option Nat))
    (m : Match) (hne : w1 ≠ w2) (hInv : C4Inv mid w1 w2 m)
    (hres : ∀ r ∈ results, r = some w1 ∨ r = some w2) :
    C4Inv mid w1 w2 (results.foldl recordStep m) := by
  induction results generalizing m with
  | nil => exact hInv
  | cons r rest ih =>
    rw [List.foldl_cons]
    exact ih (recordStep m r)
      (recordStep_C4Inv mid w1 w2 m r hne hInv (hres r (List.mem_cons_self r rest)))
      fun r' hr' => hres r' (List.mem_cons_of_mem r hr')

lemma recordStep_C9Inv (mid : Nat) (m : Match) (r : Option Nat)
    (hInv : C9Inv mid m) : C9Inv mid (recordStep m r) := by
  obtain ⟨hid, hwg, hlg, hiff, hmem⟩ := hInv
  unfold recordStep
  split_ifs with hfin
  · exact ⟨by simpa using hid, by simpa using hwg, by simpa using hlg,
      by simpa using hiff, by simpa using hmem⟩
  · refine ⟨by simpa using hid, by simpa using hwg, by simpa using hlg, ?_, ?_⟩
    · simp only [nextGameMatch_who, nextGameMatch_currentGame]
      rcases hmem with h1 | h1 <;> rw [h1] at hiff ⊢ <;> simp [flipStart] <;>
        simp at hiff <;> omega
    · simp only [nextGameMatch_who]
      rcases hmem with h1 | h1 <;> rw [h1] <;> simp [flipStart]

lemma foldl_recordStep_C9Inv (mid : Nat) (results : List (Option Nat))
    (m : Match) (hInv : C9Inv mid m) :
    C9Inv mid (results.foldl recordStep m) := by
  induction results generalizing m with
  | nil => exact hInv
  | cons r rest ih =>
    rw [List.foldl_cons]
    exact ih (recordStep m r) (recordStep_C9Inv mid m r hInv)

end Tournament

namespace Tournament

/-- C4 counterexample: three drawn games on a freshly started best-of-3
match leave it unfinished with `currentGame = 4 > 3 = bestOf` — draws
consume game numbers without bound, so `currentGame ≤ bestOf` does not hold
while the match is unfinished. -/
theorem match_closure_cex :
    StartedMatch c4M 1 2 ∧
    (matchAfter c4M [none, none, none]).map
        (fun m' => (m'.phase, m'.currentGame, m'.bestOf)) =
      some (.playing, 4, 3) :=
  ⟨⟨rfl, rfl, rfl, rfl, rfl, rfl, rfl, by decide, by decide, by decide⟩, rfl⟩

/-- C4 (amended): on a started best-of-3 match, after any sequence of
decisive `recordGameResult` calls the match is finished exactly when a
player has reached `⌈bestOf/2⌉ = 2` wins, and while unfinished
`currentGame ≤ bestOf`; and a drawn game (`winnerId = null`) increments
neither win counter. -/
theorem match_closure (m : Match) (w1 w2 : Nat)
    (hstart : StartedMatch m w1 w2) (results : List (Option Nat)) :
    ((∀ r ∈ results, r = some w1 ∨ r = some w2) →
      ∃ m', matchAfter m results = some m' ∧
        (m'.phase = .finished ↔
          2 ≤ m'.score.player1Wins ∨ 2 ≤ m'.score.player2Wins) ∧
        (m'.phase ≠ .finished → m'.currentGame ≤ m.bestOf)) ∧
    (∀ mm : Match, ∀ v1 v2 : Nat, mm.player1Id = some v1 →
      mm.player2Id = some v2 → updatedScore mm none = mm.score) := by
  obtain ⟨hph, hsc, hcg, hbo, hwho, hp1, hp2, hne, hwg, hlg⟩ := hstart
  constructor
  · intro hres
    refine ⟨results.foldl recordStep m, matchAfter_eq m results hwg hlg, ?_⟩
    have hInv0 : C4Inv m.id w1 w2 m := by
      refine ⟨rfl, hbo, hp1, hp2, hwg, hlg, ?_, ?_⟩
      · rw [hph, hsc]
        constructor
        · intro h
          exact absurd h (by decide)
        · intro h
          rcases h with h | h <;> exact absurd h (by decide)
      · intro _
        rw [hsc, hcg]
        exact ⟨by decide, by decide, rfl⟩
    have hInv := foldl_recordStep_C4Inv m.id w1 w2 results m hne hInv0 hres
    obtain ⟨_, hbo', _, _, _, _, hiff', hbound'⟩ := hInv
    refine ⟨hiff', fun hnf => ?_⟩
    obtain ⟨hb1, hb2, hcg'⟩ := hbound' hnf
    rw [hbo]
    omega
  · intro mm v1 v2 hv1 hv2
    unfold updatedScore
    rw [hv1, hv2,
      if_neg (fun hh : (none : Option Nat) = some v1 => Option.noConfusion hh),
      if_neg (fun hh : (none : Option Nat) = some v2 => Option.noConfusion hh)]

/-- C4 witness: the amended statement at a concrete started match, with two
straight wins by player 1 (finished at two wins) and at a concrete drawn
game (score untouched). -/
theorem match_closure_witness :
    (∃ m', matchAfter c4M [some 1, some 1] = some m' ∧
      (m'.phase = .finished ↔
        2 ≤ m'.score.player1Wins ∨ 2 ≤ m'.score.player2Wins) ∧
      (m'.phase ≠ .finished → m'.currentGame ≤ c4M.bestOf)) ∧
    updatedScore c4M none = c4M.score :=
  ⟨(match_closure c4M 1 2
      ⟨rfl, rfl, rfl, rfl, rfl, rfl, rfl, by decide, by decide, by decide⟩
      [some 1, some 1]).1 (by decide),
    (match_closure c4M 1 2
      ⟨rfl, rfl, rfl, rfl, rfl, rfl, rfl, by decide, by decide, by decide⟩
      []).2 c4M 1 2 rfl rfl⟩

/-- C9: `startMatch` starts game 1 with `player1`, and on a started match,
after any sequence of `recordGameResult` calls — decisive or drawn —
`whoStartsCurrentGame` is `player1` exactly in odd-numbered games and
`player2` exactly in even-numbered ones. -/
theorem start_alternation :
    (∀ t : Tournament, ∀ mid : Nat, ∀ m1 : Match,
      (startMatch t mid).1 = some m1 →
      m1.currentGame = 1 ∧ m1.whoStartsCurrentGame = some .player1) ∧
    (∀ m : Match, ∀ w1 w2 : Nat, StartedMatch m w1 w2 →
      ∀ results : List (Option Nat),
        ∃ m', matchAfter m results = some m' ∧
          (m'.whoStartsCurrentGame = some .player1 ↔
            m'.currentGame % 2 = 1) ∧
          (m'.whoStartsCurrentGame = some .player2 ↔
            m'.currentGame % 2 = 0)) := by
  constructor
  · intro t mid m1 h
    unfold startMatch at h
    split at h
    · exact absurd h (by simp)
    · split_ifs at h
      have h' := Option.some.inj h
      exact ⟨by rw [← h'], by rw [← h']⟩
  · intro m w1 w2 hstart results
    obtain ⟨hph, hsc, hcg, hbo, hwho, hp1, hp2, hne, hwg, hlg⟩ := hstart
    refine ⟨results.foldl recordStep m, matchAfter_eq m results hwg hlg, ?_⟩
    have hInv0 : C9Inv m.id m := by
      refine ⟨rfl, hwg, hlg, ?_, Or.inl hwho⟩
      rw [hwho, hcg]
      simp
    have hInv := foldl_recordStep_C9Inv m.id results m hInv0
    obtain ⟨_, _, _, hiff', hmem'⟩ := hInv
    refine ⟨hiff', ?_⟩
    rcases hmem' with h1 | h1 <;> rw [h1] <;> rw [h1] at hiff'
    · have h2 := hiff'.mp rfl
      constructor
      · intro hh
        exact absurd hh (by simp)
      · intro hh
        omega
    · have hodd : ¬(results.foldl recordStep m).currentGame % 2 = 1 := fun hh =>
        absurd (hiff'.mpr hh) (by simp)
      constructor
      · intro _
        omega
      · intro _
        rfl

/-- C9 witness: `startMatch` on a concrete waiting match yields game 1
starting with `player1`, and the alternation invariant at a concrete
started match after one drawn game. -/
theorem start_alternation_witness :
    (startedC9.currentGame = 1 ∧
      startedC9.whoStartsCurrentGame = some .player1) ∧
    (∃ m', matchAfter c4M [none] = some m' ∧
      (m'.whoStartsCurrentGame = some .player1 ↔ m'.currentGame % 2 = 1) ∧
      (m'.whoStartsCurrentGame = some .player2 ↔ m'.currentGame % 2 = 0)) :=
  ⟨start_alternation.1 (singleMatchT c9M) 1 startedC9 rfl,
    start_alternation.2 c4M 1 2
      ⟨rfl, rfl, rfl, rfl, rfl, rfl, rfl, by decide, by decide, by decide⟩
      [none]⟩

end Tournament

namespace Tournament

-- Computation lemmas for recordGameResult on a general tournament whose
-- looked-up match sits in the grand-final or reset slot.

lemma find_matches_skip (l1 l2 : List Match) (mid : Nat)
    (h : ∀ m ∈ l1, m.id ≠ mid) :
    List.find? (fun m => m.id == mid) (l1 ++ l2) =
      List.find? (fun m => m.id == mid) l2 := by
  induction l1 with
  | nil => rfl
  | cons a l ih =>
    rw [List.cons_append,
      List.find?_cons_of_neg _ (by simp [h a (List.mem_cons_self a l)]),
      ih fun m hm => h m (List.mem_cons_of_mem a hm)]

lemma getMatch_grandFinal (t : Tournament) (gf : Match)
    (hgf : t.grandFinal = some gf)
    (hidw : ∀ m ∈ t.winnersMatches, m.id ≠ gf.id)
    (hidl : ∀ m ∈ t.losersMatches, m.id ≠ gf.id) :
    getMatch t gf.id = some gf := by
  unfold getMatch allMatches
  simp only [List.append_assoc]
  rw [find_matches_skip _ _ _ hidw, find_matches_skip _ _ _ hidl, hgf]
  simp [List.find?]

lemma getMatch_grandFinalReset (t : Tournament) (gfr : Match)
    (hgfr : t.grandFinalReset = some gfr)
    (hidw : ∀ m ∈ t.winnersMatches, m.id ≠ gfr.id)
    (hidl : ∀ m ∈ t.losersMatches, m.id ≠ gfr.id)
    (hidg : ∀ m ∈ t.grandFinal.toList, m.id ≠ gfr.id) :
    getMatch t gfr.id = some gfr := by
  unfold getMatch allMatches
  simp only [List.append_assoc]
  rw [find_matches_skip _ _ _ hidw, find_matches_skip _ _ _ hidl,
    find_matches_skip _ _ _ hidg, hgfr]
  simp [List.find?]

lemma map_update_id (l : List Match) (mid : Nat) (f : Match → Match)
    (h : ∀ m ∈ l, m.id ≠ mid) :
    (l.map fun m => if m.id = mid then f m else m) = l := by
  induction l with
  | nil => rfl
  | cons a l ih =>
    rw [List.map_cons, if_neg (h a (List.mem_cons_self a l)),
      ih fun m hm => h m (List.mem_cons_of_mem a hm)]

lemma updateMatch_gf_slot (t : Tournament) (gf : Match) (f : Match → Match)
    (hgf : t.grandFinal = some gf)
    (hidw : ∀ m ∈ t.winnersMatches, m.id ≠ gf.id)
    (hidl : ∀ m ∈ t.losersMatches, m.id ≠ gf.id)
    (hidr : ∀ m ∈ t.grandFinalReset.toList, m.id ≠ gf.id) :
    updateMatch t gf.id f = { t with grandFinal := some (f gf) } := by
  unfold updateMatch
  rw [map_update_id _ _ _ hidw, map_update_id _ _ _ hidl, hgf]
  cases hr : t.grandFinalReset with
  | none => simp
  | some gfr =>
    have hne : gfr.id ≠ gf.id := hidr gfr (by simp [hr])
    simp [hne]

lemma updateMatch_gfr_slot (t : Tournament) (gfr : Match) (f : Match → Match)
    (hgfr : t.grandFinalReset = some gfr)
    (hidw : ∀ m ∈ t.winnersMatches, m.id ≠ gfr.id)
    (hidl : ∀ m ∈ t.losersMatches, m.id ≠ gfr.id)
    (hidg : ∀ m ∈ t.grandFinal.toList, m.id ≠ gfr.id) :
    updateMatch t gfr.id f = { t with grandFinalReset := some (f gfr) } := by
  unfold updateMatch
  rw [map_update_id _ _ _ hidw, map_update_id _ _ _ hidl, hgfr]
  cases hg : t.grandFinal with
  | none => simp
  | some gf =>
    have hne : gf.id ≠ gfr.id := hidg gf (by simp [hg])
    simp [hne]

lemma advanceW_none (t : Tournament) (m1 : Match)
    (h : m1.winnerGoesToMatchId = none) : advanceW t m1 = t := by
  unfold advanceW
  rw [h]
  cases m1.winnerId <;> rfl

lemma advanceL_none (t : Tournament) (m1 : Match)
    (h : m1.loserGoesToMatchId = none) : advanceL t m1 = t := by
  unfold advanceL
  rw [h]
  cases m1.loserId <;> rfl

lemma recordGameResult_eq_finished (t : Tournament) (mid g : Nat)
    (r : Option Nat) (m : Match) (hget : getMatch t mid = some m)
    (hfin : winsNeeded m ≤ (updatedScore m r).player1Wins ∨
      winsNeeded m ≤ (updatedScore m r).player2Wins) :
    recordGameResult t mid g r = recordFinished t mid (finishedMatch m r) := by
  unfold recordGameResult
  simp only [hget]
  rw [if_pos hfin]

lemma recordFinished_eq (t : Tournament) (mid : Nat) (m1 : Match)
    (hwg : m1.winnerGoesToMatchId = none)
    (hlg : m1.loserGoesToMatchId = none) :
    recordFinished t mid m1 =
      ((true, (grandFinalStep (updateMatch t mid fun _ => m1) m1 mid).2),
        championStep (grandFinalStep (updateMatch t mid fun _ => m1) m1 mid).1) := by
  unfold recordFinished
  rw [advanceW_none _ _ hwg, advanceL_none _ _ hlg]

end Tournament

namespace Tournament

lemma updatedScore_p1 (m : Match) (w : Nat) (hp1 : m.player1Id = some w) :
    updatedScore m (some w) =
      { m.score with player1Wins := m.score.player1Wins + 1 } := by
  unfold updatedScore
  rw [hp1, if_pos rfl]

lemma updatedScore_p2 (m : Match) (w l : Nat) (hp1 : m.player1Id = some w)
    (hp2 : m.player2Id = some l) (hne : w ≠ l) :
    updatedScore m (some l) =
      { m.score with player2Wins := m.score.player2Wins + 1 } := by
  unfold updatedScore
  rw [hp1, hp2,
    if_neg fun hh : some l = some w => hne (Option.some.inj hh).symm,
    if_pos rfl]

lemma finishedMatch_eq_p1 (m : Match) (r : Option Nat)
    (h : winsNeeded m ≤ (updatedScore m r).player1Wins) :
    finishedMatch m r =
      { m with
        score := updatedScore m r
        winnerId := m.player1Id
        loserId := m.player2Id
        phase := .finished } := by
  unfold finishedMatch
  rw [if_pos h]

lemma finishedMatch_eq_p2 (m : Match) (r : Option Nat)
    (h : ¬ winsNeeded m ≤ (updatedScore m r).player1Wins) :
    finishedMatch m r =
      { m with
        score := updatedScore m r
        winnerId := m.player2Id
        loserId := m.player1Id
        phase := .finished } := by
  unfold finishedMatch
  rw [if_neg h]

end Tournament

namespace Tournament

lemma grandFinalStep_gf_won (t1 : Tournament) (m1 : Match) (mid : Nat)
    (hgf1 : t1.grandFinal = some m1) (hid : m1.id = mid)
    (hwin : m1.winnerId = m1.player1Id) :
    grandFinalStep t1 m1 mid = ({ t1 with championId := m1.winnerId }, true) := by
  unfold grandFinalStep
  have hg : isGF t1 mid = true := by
    unfold isGF
    rw [hgf1]
    simp [hid]
  simp only [hg, eq_self_iff_true, if_true]
  rw [if_pos hwin]

lemma grandFinalStep_gf_lost (t1 : Tournament) (m1 gfr : Match) (mid : Nat)
    (hgf1 : t1.grandFinal = some m1) (hid : m1.id = mid)
    (hwin : m1.winnerId ≠ m1.player1Id)
    (hres : t1.grandFinalReset = some gfr) :
    grandFinalStep t1 m1 mid =
      ({ t1 with grandFinalReset := some (populatedReset gfr m1) }, false) := by
  unfold grandFinalStep
  have hg : isGF t1 mid = true := by
    unfold isGF
    rw [hgf1]
    simp [hid]
  simp only [hg, eq_self_iff_true, if_true]
  rw [if_neg hwin, hres]

lemma grandFinalStep_reset (t1 : Tournament) (m1 : Match) (mid : Nat)
    (hgfne : ∀ m ∈ t1.grandFinal.toList, m.id ≠ mid)
    (hres : t1.grandFinalReset = some m1) (hid : m1.id = mid) :
    grandFinalStep t1 m1 mid = ({ t1 with championId := m1.winnerId }, true) := by
  unfold grandFinalStep
  have hg : isGF t1 mid = false := by
    unfold isGF
    cases hgf1 : t1.grandFinal with
    | none => rfl
    | some gf2 => simpa using hgfne gf2 (by simp [hgf1])
  have hr : isGFReset t1 mid = true := by
    unfold isGFReset
    rw [hres]
    simp [hid]
  simp only [hg, hr, Bool.false_eq_true, if_false, eq_self_iff_true, if_true]

/-- C2: grand-final resolution in `recordGameResult`.  If the winners-side
player (the `player1` slot of the grand final) takes the deciding game, the
champion is set and the tournament phase becomes `finished`; if the
losers-side player takes it, the reset match is populated with the same two
players and there is still no champion; when the reset match finishes, its
winner becomes champion and the tournament finishes.  Advancement fills the
`player1` slot first, which is why the winners-bracket champion occupies it. -/
theorem grand_final_logic :
    (∀ (t : Tournament) (gf : Match) (g w l : Nat),
      GFSetting t gf w l → 1 ≤ gf.score.player1Wins →
      (recordGameResult t gf.id g (some w)).1 = (true, true) ∧
      (recordGameResult t gf.id g (some w)).2.championId = some w ∧
      (recordGameResult t gf.id g (some w)).2.phase = .finished) ∧
    (∀ (t : Tournament) (gf gfr : Match) (g w l : Nat),
      GFSetting t gf w l → t.grandFinalReset = some gfr →
      gf.score.player1Wins ≤ 1 → 1 ≤ gf.score.player2Wins →
      (recordGameResult t gf.id g (some l)).1 = (true, false) ∧
      (recordGameResult t gf.id g (some l)).2.championId = none ∧
      (recordGameResult t gf.id g (some l)).2.phase = t.phase ∧
      (recordGameResult t gf.id g (some l)).2.grandFinalReset =
        some { gfr with player1Id := some w, player2Id := some l }) ∧
    (∀ (t : Tournament) (gfr : Match) (g a b x : Nat),
      ResetSetting t gfr a b →
      (x = a ∧ 1 ≤ gfr.score.player1Wins ∨
        x = b ∧ gfr.score.player1Wins ≤ 1 ∧ 1 ≤ gfr.score.player2Wins) →
      (recordGameResult t gfr.id g (some x)).1 = (true, true) ∧
      (recordGameResult t gfr.id g (some x)).2.championId = some x ∧
      (recordGameResult t gfr.id g (some x)).2.phase = .finished) ∧
    (∀ (m : Match) (pid : Nat),
      (m.player1Id = none → advanceSlot m pid = { m with player1Id := some pid }) ∧
      (m.player1Id ≠ none → m.player2Id = none →
        advanceSlot m pid = { m with player2Id := some pid })) := by
  refine ⟨?_, ?_, ?_, ?_⟩
  · -- winners-side champion wins the grand final
    intro t gf g w l hset ha
    obtain ⟨hgf, hidw, hidl, hidr, hp1, hp2, hne, hbo, hwg, hlg, hch⟩ := hset
    have hsc := updatedScore_p1 gf w hp1
    have hwn : winsNeeded gf = 2 := by rw [winsNeeded, hbo]
    have hfga : winsNeeded gf ≤ (updatedScore gf (some w)).player1Wins := by
      rw [hsc, hwn]
      simp
      omega
    have hm1 := finishedMatch_eq_p1 gf (some w) hfga
    rw [recordGameResult_eq_finished t gf.id g (some w) gf
        (getMatch_grandFinal t gf hgf hidw hidl) (Or.inl hfga),
      recordFinished_eq t gf.id (finishedMatch gf (some w))
        (by rw [finishedMatch_winnerGoesTo]; exact hwg)
        (by rw [finishedMatch_loserGoesTo]; exact hlg),
      updateMatch_gf_slot t gf _ hgf hidw hidl hidr]
    simp only []
    have hwid : (finishedMatch gf (some w)).winnerId = some w := by
      rw [hm1]
      exact hp1
    rw [grandFinalStep_gf_won _ (finishedMatch gf (some w)) gf.id rfl
      (finishedMatch_id gf (some w))
      (by rw [hwid, finishedMatch_player1Id, hp1])]
    refine ⟨rfl, ?_, ?_⟩ <;> simp [championStep, hwid]
  · -- losers-side champion wins the grand final: reset populated
    intro t gf gfr g w l hset hgfr hp1le hb
    obtain ⟨hgf, hidw, hidl, hidr, hp1, hp2, hne, hbo, hwg, hlg, hch⟩ := hset
    have hsc := updatedScore_p2 gf w l hp1 hp2 hne
    have hwn : winsNeeded gf = 2 := by rw [winsNeeded, hbo]
    have hnfa : ¬ winsNeeded gf ≤ (updatedScore gf (some l)).player1Wins := by
      rw [hsc, hwn]
      simp
      omega
    have hfgb : winsNeeded gf ≤ (updatedScore gf (some l)).player2Wins := by
      rw [hsc, hwn]
      simp
      omega
    have hm1 := finishedMatch_eq_p2 gf (some l) hnfa
    rw [recordGameResult_eq_finished t gf.id g (some l) gf
        (getMatch_grandFinal t gf hgf hidw hidl) (Or.inr hfgb),
      recordFinished_eq t gf.id (finishedMatch gf (some l))
        (by rw [finishedMatch_winnerGoesTo]; exact hwg)
        (by rw [finishedMatch_loserGoesTo]; exact hlg),
      updateMatch_gf_slot t gf _ hgf hidw hidl hidr]
    simp only []
    have hwid : (finishedMatch gf (some l)).winnerId = some l := by
      rw [hm1]
      exact hp2
    have hpop : populatedReset gfr (finishedMatch gf (some l)) =
        { gfr with player1Id := some w, player2Id := some l } := by
      unfold populatedReset
      rw [finishedMatch_player1Id, finishedMatch_player2Id, hp1, hp2]
    rw [grandFinalStep_gf_lost
      { t with grandFinal := some (finishedMatch gf (some l)) }
      (finishedMatch gf (some l)) gfr gf.id rfl
      (finishedMatch_id gf (some l))
      (by rw [hwid, finishedMatch_player1Id, hp1]
          exact fun hh => hne (Option.some.inj hh).symm)
      (show ({ t with grandFinal := some (finishedMatch gf (some l)) } :
          Tournament).grandFinalReset = some gfr from hgfr)]
    refine ⟨rfl, ?_, ?_, ?_⟩ <;> simp [championStep, hch, hpop]
  · -- the reset match finishes: its winner is champion
    intro t gfr g a b x hset hx
    obtain ⟨hgfr, hidw, hidl, hidg, hp1, hp2, hne, hbo, hwg, hlg, hch⟩ := hset
    have hwn : winsNeeded gfr = 2 := by rw [winsNeeded, hbo]
    have hkey : (winsNeeded gfr ≤ (updatedScore gfr (some x)).player1Wins ∨
        winsNeeded gfr ≤ (updatedScore gfr (some x)).player2Wins) ∧
        (finishedMatch gfr (some x)).winnerId = some x := by
      rcases hx with ⟨hxa, hsa⟩ | ⟨hxb, hle, hsb⟩
      · subst hxa
        have hsc := updatedScore_p1 gfr x hp1
        have hfga : winsNeeded gfr ≤ (updatedScore gfr (some x)).player1Wins := by
          rw [hsc, hwn]
          simp
          omega
        refine ⟨Or.inl hfga, ?_⟩
        rw [finishedMatch_eq_p1 gfr (some x) hfga]
        exact hp1
      · subst hxb
        have hsc := updatedScore_p2 gfr a x hp1 hp2 hne
        have hnfa : ¬ winsNeeded gfr ≤ (updatedScore gfr (some x)).player1Wins := by
          rw [hsc, hwn]
          simp
          omega
        have hfgb : winsNeeded gfr ≤ (updatedScore gfr (some x)).player2Wins := by
          rw [hsc, hwn]
          simp
          omega
        refine ⟨Or.inr hfgb, ?_⟩
        rw [finishedMatch_eq_p2 gfr (some x) hnfa]
        exact hp2
    rw [recordGameResult_eq_finished t gfr.id g (some x) gfr
        (getMatch_grandFinalReset t gfr hgfr hidw hidl hidg) hkey.1,
      recordFinished_eq t gfr.id (finishedMatch gfr (some x))
        (by rw [finishedMatch_winnerGoesTo]; exact hwg)
        (by rw [finishedMatch_loserGoesTo]; exact hlg),
      updateMatch_gfr_slot t gfr _ hgfr hidw hidl hidg]
    simp only []
    rw [grandFinalStep_reset
      { t with grandFinalReset := some (finishedMatch gfr (some x)) }
      (finishedMatch gfr (some x)) gfr.id
      (show ∀ m ∈ ({ t with
          grandFinalReset := some (finishedMatch gfr (some x)) } :
          Tournament).grandFinal.toList, m.id ≠ gfr.id from hidg)
      rfl (finishedMatch_id gfr (some x))]
    refine ⟨rfl, ?_, ?_⟩ <;> simp [championStep, hkey.2]
  · -- advancement fills the player1 slot first
    intro m pid
    constructor
    · intro h1
      unfold advanceSlot
      rw [if_pos h1]
    · intro h1 h2
      unfold advanceSlot
      rw [if_neg h1, if_pos h2]

/-- C2 witness: a concrete tournament at the grand final with the score 1-0
for the winners-side player; that player wins game 2, becomes champion, and
the tournament finishes. -/
theorem grand_final_logic_witness :
    (recordGameResult tW gfW.id 2 (some 1)).1 = (true, true) ∧
    (recordGameResult tW gfW.id 2 (some 1)).2.championId = some 1 ∧
    (recordGameResult tW gfW.id 2 (some 1)).2.phase = .finished :=
  grand_final_logic.1 tW gfW 2 1 2
    ⟨rfl, by decide, by decide, by decide, rfl, rfl, by decide, rfl, rfl, rfl,
      rfl⟩
    (by decide)

end Tournament

namespace Tournament

-- List plumbing for the bracket proofs.

lemma modifyNth_length (f : List Match → List Match) (i : Nat)
    (L : List (List Match)) : (modifyNth f i L).length = L.length := by
  induction L generalizing i with
  | nil => cases i <;> rfl
  | cons r rest ih =>
    cases i with
    | zero => rfl
    | succ j => simpa [modifyNth] using ih j

lemma modifyNth_getD_ne (f : List Match → List Match) (i j : Nat)
    (L : List (List Match)) (h : j ≠ i) :
    (modifyNth f i L).getD j [] = L.getD j [] := by
  induction L generalizing i j with
  | nil => cases i <;> rfl
  | cons r rest ih =>
    cases i with
    | zero =>
      cases j with
      | zero => exact absurd rfl h
      | succ jj => rfl
    | succ ii =>
      cases j with
      | zero => rfl
      | succ jj => simpa [modifyNth] using ih ii jj fun hh => h (by rw [hh])

lemma modifyNth_getD_self (f : List Match → List Match) (i : Nat)
    (L : List (List Match)) (h : i < L.length) :
    (modifyNth f i L).getD i [] = f (L.getD i []) := by
  induction L generalizing i with
  | nil => exact absurd h (by simp)
  | cons r rest ih =>
    cases i with
    | zero => rfl
    | succ j => simpa [modifyNth] using ih j (by simpa using h)

lemma flatten_mem_getD (L : List (List Match)) (m : Match)
    (h : m ∈ L.flatten) : ∃ i, i < L.length ∧ m ∈ L.getD i [] := by
  induction L with
  | nil => simp at h
  | cons r rest ih =>
    rw [List.flatten_cons, List.mem_append] at h
    rcases h with h | h
    · exact ⟨0, by simp, h⟩
    · obtain ⟨i, hi, hm⟩ := ih h
      exact ⟨i + 1, by simpa using hi, hm⟩

lemma getD_mem_flatten (L : List (List Match)) (i : Nat) (m : Match)
    (h : m ∈ L.getD i []) : m ∈ L.flatten := by
  induction L generalizing i with
  | nil => simp at h
  | cons r rest ih =>
    rw [List.flatten_cons, List.mem_append]
    cases i with
    | zero => exact Or.inl h
    | succ j => exact Or.inr (ih j h)

lemma mapIdxFrom_mem (f : Nat → Match → Match) (j : Nat) (l : List Match)
    (m' : Match) (h : m' ∈ mapIdxFrom f j l) :
    ∃ i m, j ≤ i ∧ i < j + l.length ∧ m ∈ l ∧ m' = f i m := by
  induction l generalizing j with
  | nil => simp [mapIdxFrom] at h
  | cons a rest ih =>
    rw [mapIdxFrom, List.mem_cons] at h
    rcases h with h | h
    · exact ⟨j, a, le_refl j, by simp, List.mem_cons_self a rest, h⟩
    · obtain ⟨i, m, hji, hlt, hm, he⟩ := ih (j + 1) h
      exact ⟨i, m, by omega, by simp at hlt ⊢; omega,
        List.mem_cons_of_mem a hm, he⟩

lemma RoundsNumbered_append (b : Nat) (X : List (List Match))
    (y : List Match) :
    RoundsNumbered b (X ++ [y]) ↔
      RoundsNumbered b X ∧ ∀ m ∈ y, m.round = b + X.length := by
  induction X generalizing b with
  | nil => simp [RoundsNumbered]
  | cons r rest ih =>
    rw [List.cons_append]
    show ((∀ m ∈ r, m.round = b) ∧ RoundsNumbered (b + 1) (rest ++ [y])) ↔ _
    rw [ih (b + 1)]
    constructor
    · rintro ⟨h1, h2, h3⟩
      exact ⟨⟨h1, h2⟩, fun m hm => by rw [h3 m hm, List.length_cons]; omega⟩
    · rintro ⟨⟨h1, h2⟩, h3⟩
      exact ⟨h1, h2, fun m hm => by rw [h3 m hm, List.length_cons]; omega⟩

lemma RoundsNumbered_getD (b : Nat) (L : List (List Match))
    (h : RoundsNumbered b L) :
    ∀ i, ∀ m ∈ L.getD i [], m.round = b + i := by
  induction L generalizing b with
  | nil => intro i m hm; simp at hm
  | cons r rest ih =>
    intro i m hm
    cases i with
    | zero => simpa using h.1 m hm
    | succ j =>
      have := ih (b + 1) h.2 j m hm
      omega

-- ceilLog2 facts.

lemma le_two_pow_ceilLog2 (n : Nat) : n ≤ 2 ^ ceilLog2 n := by
  unfold ceilLog2
  cases hf : (List.range (n + 1)).find? fun k => n ≤ 2 ^ k with
  | none =>
    simp only [Option.getD_none]
    exact le_of_lt (Nat.lt_two_pow n)
  | some k =>
    simp only [Option.getD_some]
    have := List.find?_some hf
    simpa using this

lemma numRoundsWinners_pos (n : Nat) (h : 2 ≤ n) : 1 ≤ numRoundsWinners n := by
  by_contra hcon
  push_neg at hcon
  have h1 : numRoundsWinners n = 0 := by omega
  have h2 : bracketSize n ≤ 2 ^ numRoundsWinners n :=
    le_two_pow_ceilLog2 (bracketSize n)
  rw [h1] at h2
  have h3 : n ≤ bracketSize n := le_two_pow_ceilLog2 n
  simp at h2
  omega

lemma numRoundsWinners_ge2 (n : Nat) (h : 3 ≤ n) : 2 ≤ numRoundsWinners n := by
  have hk : 2 ≤ ceilLog2 n := by
    by_contra hcon
    push_neg at hcon
    have h1 : n ≤ 2 ^ ceilLog2 n := le_two_pow_ceilLog2 n
    interval_cases hys : ceilLog2 n <;> simp [hys] at h1 <;> omega
  by_contra hcon
  push_neg at hcon
  have h2 : bracketSize n ≤ 2 ^ numRoundsWinners n :=
    le_two_pow_ceilLog2 (bracketSize n)
  have h3 : 2 ^ numRoundsWinners n ≤ 2 ^ 1 :=
    Nat.pow_le_pow_right (by omega) (by omega)
  have h4 : 2 ^ 2 ≤ 2 ^ ceilLog2 n := Nat.pow_le_pow_right (by omega) hk
  unfold bracketSize at h2
  omega

end Tournament

namespace Tournament

-- Field facts about the created matches and the link rewrites.

lemma round1Match_round (players : List Nat) (i : Nat) :
    (round1Match players i).round = 1 := by
  unfold round1Match
  split_ifs <;> rfl

lemma round1Match_loserGoesTo (players : List Nat) (i : Nat) :
    (round1Match players i).loserGoesToMatchId = none := by
  unfold round1Match
  split_ifs <;> rfl

lemma upMatch_round (prev : List Match) (r c i : Nat) :
    (upMatch prev r c i).round = r := rfl

lemma upMatch_loserGoesTo (prev : List Match) (r c i : Nat) :
    (upMatch prev r c i).loserGoesToMatchId = none := rfl

lemma linkWinnerPair_mem (c k : Nat) (l : List Match) (m' : Match)
    (h : m' ∈ linkWinnerPair c k l) :
    ∃ m ∈ l, m'.round = m.round ∧
      m'.loserGoesToMatchId = m.loserGoesToMatchId := by
  obtain ⟨i, m, _, _, hm, he⟩ := mapIdxFrom_mem _ _ _ _ h
  refine ⟨m, hm, ?_⟩
  rw [he]
  split_ifs <;> exact ⟨rfl, rfl⟩

lemma linkWinnerSame_mem (c k : Nat) (l : List Match) (m' : Match)
    (h : m' ∈ linkWinnerSame c k l) :
    ∃ m ∈ l, m'.round = m.round ∧
      m'.loserGoesToMatchId = m.loserGoesToMatchId := by
  obtain ⟨i, m, _, _, hm, he⟩ := mapIdxFrom_mem _ _ _ _ h
  refine ⟨m, hm, ?_⟩
  rw [he]
  split_ifs <;> exact ⟨rfl, rfl⟩

lemma linkLoserDrop1_mem (c k : Nat) (l : List Match) (m' : Match)
    (h : m' ∈ linkLoserDrop1 c k l) :
    ∃ m ∈ l, m'.round = m.round ∧
      (m'.loserGoesToMatchId = m.loserGoesToMatchId ∨
        m'.loserGoesToMatchId ≠ none) := by
  obtain ⟨i, m, _, _, hm, he⟩ := mapIdxFrom_mem _ _ _ _ h
  refine ⟨m, hm, ?_⟩
  rw [he]
  split_ifs with hc
  · exact ⟨rfl, Or.inr (by simp)⟩
  · exact ⟨rfl, Or.inl rfl⟩

lemma linkLoserDropLater_mem (c k : Nat) (l : List Match) (m' : Match)
    (h : m' ∈ linkLoserDropLater c k l) :
    ∃ m ∈ l, m'.round = m.round ∧
      (m'.loserGoesToMatchId = m.loserGoesToMatchId ∨
        m'.loserGoesToMatchId ≠ none) := by
  obtain ⟨i, m, _, _, hm, he⟩ := mapIdxFrom_mem _ _ _ _ h
  refine ⟨m, hm, ?_⟩
  rw [he]
  split_ifs with hc
  · exact ⟨rfl, Or.inr (by simp)⟩
  · exact ⟨rfl, Or.inl rfl⟩

lemma linkLoserDrop1_all_linked (c k : Nat) (l : List Match)
    (h : l.length ≤ 2 * k) :
    ∀ m' ∈ linkLoserDrop1 c k l, m'.loserGoesToMatchId ≠ none := by
  intro m' hm'
  obtain ⟨i, m, hj, hlt, hm, he⟩ := mapIdxFrom_mem _ _ _ _ hm'
  rw [he]
  have hik : i / 2 < k := by omega
  rw [if_pos hik]
  simp

lemma winnersRound1_round (players : List Nat) :
    ∀ m ∈ winnersRound1 players, m.round = 1 := by
  intro m hm
  obtain ⟨i, _, he⟩ := List.mem_map.mp hm
  rw [← he]
  exact round1Match_round players i

lemma winnersRound1_loserGoesTo (players : List Nat) :
    ∀ m ∈ winnersRound1 players, m.loserGoesToMatchId = none := by
  intro m hm
  obtain ⟨i, _, he⟩ := List.mem_map.mp hm
  rw [← he]
  exact round1Match_loserGoesTo players i

lemma newWinnersRound_round (prev : List Match) (r c : Nat) :
    ∀ m ∈ newWinnersRound prev r c, m.round = r := by
  intro m hm
  obtain ⟨i, _, he⟩ := List.mem_map.mp hm
  rw [← he]
  rfl

lemma newWinnersRound_loserGoesTo (prev : List Match) (r c : Nat) :
    ∀ m ∈ newWinnersRound prev r c, m.loserGoesToMatchId = none := by
  intro m hm
  obtain ⟨i, _, he⟩ := List.mem_map.mp hm
  rw [← he]
  rfl

lemma buildWinners_inv (count : Nat) (revR : List (List Match)) (c r : Nat)
    (hne : revR ≠ [])
    (hnum : RoundsNumbered 1 revR.reverse)
    (hr : r = revR.length + 1)
    (hnone : ∀ m ∈ revR.flatten, m.loserGoesToMatchId = none) :
    (buildWinners count revR c r).1 ≠ [] ∧
    (buildWinners count revR c r).1.length = revR.length + count ∧
    RoundsNumbered 1 (buildWinners count revR c r).1.reverse ∧
    (∀ m ∈ (buildWinners count revR c r).1.flatten,
      m.loserGoesToMatchId = none) := by
  induction count generalizing revR c r with
  | zero => exact ⟨hne, rfl, hnum, hnone⟩
  | succ n ih =>
    match revR, hne with
    | prev :: older, _ =>
      rw [show buildWinners (n + 1) (prev :: older) c r =
          buildWinners n
            (newWinnersRound prev r c ::
              linkWinnerPair c (prev.length / 2) prev :: older)
            (c + prev.length / 2) (r + 1) from rfl]
      have hrev : (prev :: older).reverse = older.reverse ++ [prev] :=
        List.reverse_cons prev older
      rw [hrev] at hnum
      obtain ⟨hnumO, hprev⟩ := (RoundsNumbered_append _ _ _).mp hnum
      have hstep := ih
        (newWinnersRound prev r c :: linkWinnerPair c (prev.length / 2) prev :: older)
        (c + prev.length / 2) (r + 1) (by simp) ?hnum2 (by simp [hr]) ?hnone2
      case hnum2 =>
        rw [List.reverse_cons, List.reverse_cons]
        rw [RoundsNumbered_append]
        constructor
        · rw [RoundsNumbered_append]
          refine ⟨hnumO, ?_⟩
          intro m hm
          obtain ⟨m0, hm0, hrd, _⟩ := linkWinnerPair_mem _ _ _ _ hm
          rw [hrd]
          exact hprev m0 hm0
        · intro m hm
          rw [newWinnersRound_round prev r c m hm, hr]
          simp
          omega
      case hnone2 =>
        intro m hm
        rw [List.flatten_cons, List.flatten_cons] at hm
        rcases List.mem_append.mp hm with hm | hm
        · exact newWinnersRound_loserGoesTo prev r c m hm
        rcases List.mem_append.mp hm with hm | hm
        · obtain ⟨m0, hm0, _, hlg⟩ := linkWinnerPair_mem _ _ _ _ hm
          rw [hlg]
          exact hnone m0 (by rw [List.flatten_cons]; exact
            List.mem_append.mpr (Or.inl hm0))
        · exact hnone m (by rw [List.flatten_cons]; exact
            List.mem_append.mpr (Or.inr hm))
      refine ⟨hstep.1, ?_, hstep.2.2.1, hstep.2.2.2⟩
      rw [hstep.2.1]
      simp
      omega

end Tournament

namespace Tournament

lemma losersIter_eq (wbr lbr : List (List Match)) (c lRound : Nat) :
    losersIter (wbr, lbr, c) lRound =
      if lRound % 2 = 1 then
        if (lRound + 1) / 2 ≤ wbr.length then
          if lRound = 1 then
            (modifyNth (linkLoserDrop1 c (dropCount wbr lRound))
                ((lRound + 1) / 2 - 1) wbr,
              lbr ++ [losersRoundMatches c lRound (dropCount wbr lRound)],
              c + dropCount wbr lRound)
          else
            (modifyNth (linkLoserDropLater c (dropCount wbr lRound))
                ((lRound + 1) / 2 - 1) wbr,
              modifyNth (linkWinnerSame c (dropCount wbr lRound)) (lRound - 2)
                  lbr ++
                [losersRoundMatches c lRound (dropCount wbr lRound)],
              c + dropCount wbr lRound)
        else (wbr, lbr ++ [[]], c)
      else
        (wbr,
          modifyNth (linkWinnerPair c (elimCount lbr lRound)) (lRound - 2)
              lbr ++
            [losersRoundMatches c lRound (elimCount lbr lRound)],
          c + elimCount lbr lRound) := rfl

lemma losersIter_facts (wbr lbr : List (List Match)) (c lRound : Nat) :
    ((losersIter (wbr, lbr, c) lRound).1.length = wbr.length) ∧
    (lRound ≠ 1 →
      (losersIter (wbr, lbr, c) lRound).1.getD 0 [] = wbr.getD 0 []) ∧
    (lRound ≤ 2 * (wbr.length - 1) →
      (losersIter (wbr, lbr, c) lRound).1.getD (wbr.length - 1) [] =
        wbr.getD (wbr.length - 1) []) ∧
    (∀ i m', m' ∈ (losersIter (wbr, lbr, c) lRound).1.getD i [] →
      ∃ m ∈ wbr.getD i [], m'.round = m.round ∧
        (m'.loserGoesToMatchId = m.loserGoesToMatchId ∨
          m'.loserGoesToMatchId ≠ none)) := by
  rw [losersIter_eq]
  split_ifs with h1 h2 h3
  · -- dropout, round 1
    subst h3
    refine ⟨modifyNth_length _ _ _, fun h => absurd rfl h, fun hle => ?_, ?_⟩
    · exact modifyNth_getD_ne _ _ _ _ (by omega)
    · intro i m' hm'
      by_cases hi : i = (1 + 1) / 2 - 1
      · subst hi
        by_cases hlen : (1 + 1) / 2 - 1 < wbr.length
        · rw [modifyNth_getD_self _ _ _ hlen] at hm'
          exact linkLoserDrop1_mem _ _ _ _ hm'
        · exact absurd hlen (by omega)
      · rw [modifyNth_getD_ne _ _ _ _ hi] at hm'
        exact ⟨m', hm', rfl, Or.inl rfl⟩
  · -- dropout, later round
    have h3' : 3 ≤ lRound := by omega
    refine ⟨modifyNth_length _ _ _, fun _ => ?_, fun hle => ?_, ?_⟩
    · exact modifyNth_getD_ne _ _ _ _ (by omega)
    · exact modifyNth_getD_ne _ _ _ _ (by omega)
    · intro i m' hm'
      by_cases hi : i = (lRound + 1) / 2 - 1
      · subst hi
        by_cases hlen : (lRound + 1) / 2 - 1 < wbr.length
        · rw [modifyNth_getD_self _ _ _ hlen] at hm'
          exact linkLoserDropLater_mem _ _ _ _ hm'
        · exact absurd hlen (by omega)
      · rw [modifyNth_getD_ne _ _ _ _ hi] at hm'
        exact ⟨m', hm', rfl, Or.inl rfl⟩
  · -- dropout round whose winners round is out of range
    exact ⟨rfl, fun _ => rfl, fun _ => rfl,
      fun i m' hm' => ⟨m', hm', rfl, Or.inl rfl⟩⟩
  · -- elimination round: the winners rounds are untouched
    exact ⟨rfl, fun _ => rfl, fun _ => rfl,
      fun i m' hm' => ⟨m', hm', rfl, Or.inl rfl⟩⟩

end Tournament

namespace Tournament

lemma losersIter_one (wbr lbr : List (List Match)) (c : Nat)
    (hlen : 1 ≤ wbr.length) :
    (losersIter (wbr, lbr, c) 1).1.getD 0 [] =
      linkLoserDrop1 c (dropCount wbr 1) (wbr.getD 0 []) := by
  rw [losersIter_eq]
  rw [if_pos (by decide : 1 % 2 = 1), if_pos (by omega : (1 + 1) / 2 ≤ wbr.length),
    if_pos rfl]
  exact modifyNth_getD_self _ _ _ (by omega)

lemma losersFold_facts (rounds : List Nat) (wbr lbr : List (List Match))
    (c : Nat) :
    ((rounds.foldl losersIter (wbr, lbr, c)).1.length = wbr.length) ∧
    (1 ∉ rounds →
      (rounds.foldl losersIter (wbr, lbr, c)).1.getD 0 [] = wbr.getD 0 []) ∧
    ((∀ r ∈ rounds, r ≤ 2 * (wbr.length - 1)) →
      (rounds.foldl losersIter (wbr, lbr, c)).1.getD (wbr.length - 1) [] =
        wbr.getD (wbr.length - 1) []) ∧
    (∀ i m', m' ∈ (rounds.foldl losersIter (wbr, lbr, c)).1.getD i [] →
      ∃ m ∈ wbr.getD i [], m'.round = m.round ∧
        (m'.loserGoesToMatchId = m.loserGoesToMatchId ∨
          m'.loserGoesToMatchId ≠ none)) := by
  induction rounds generalizing wbr lbr c with
  | nil =>
    exact ⟨rfl, fun _ => rfl, fun _ => rfl,
      fun i m' hm' => ⟨m', hm', rfl, Or.inl rfl⟩⟩
  | cons r rest ih =>
    obtain ⟨wbr1, lbr1, c1, heq⟩ :
        ∃ w l cc, losersIter (wbr, lbr, c) r = (w, l, cc) :=
      ⟨_, _, _, rfl⟩
    have hstep := losersIter_facts wbr lbr c r
    rw [heq] at hstep
    rw [List.foldl_cons, heq]
    obtain ⟨hs1, hs2, hs3, hs4⟩ := hstep
    obtain ⟨hi1, hi2, hi3, hi4⟩ := ih wbr1 lbr1 c1
    refine ⟨by rw [hi1, hs1], ?_, ?_, ?_⟩
    · intro hnot
      rw [List.mem_cons, not_or] at hnot
      rw [hi2 hnot.2, hs2 fun hh => hnot.1 hh.symm]
    · intro hbound
      have hb1 : wbr1.length = wbr.length := hs1
      rw [← hb1] at hs3 ⊢
      rw [hi3 ?restbound]
      case restbound =>
        intro x hx
        rw [hb1]
        exact hbound x (List.mem_cons_of_mem r hx)
      exact hs3 (by rw [hb1]; exact hbound r (List.mem_cons_self r rest))
    · intro i m' hm'
      obtain ⟨m1, hm1, hrd1, hlg1⟩ := hi4 i m' hm'
      obtain ⟨m0, hm0, hrd0, hlg0⟩ := hs4 i m1 hm1
      refine ⟨m0, hm0, by rw [hrd1, hrd0], ?_⟩
      rcases hlg1 with hlg1 | hlg1
      · rcases hlg0 with hlg0 | hlg0
        · exact Or.inl (by rw [hlg1, hlg0])
        · exact Or.inr (by rw [hlg1]; exact hlg0)
      · exact Or.inr hlg1

lemma linkHeadWinner_mem (g : Nat) (l : List Match) (m' : Match)
    (h : m' ∈ linkHeadWinner g l) :
    ∃ m ∈ l, m'.round = m.round ∧
      m'.loserGoesToMatchId = m.loserGoesToMatchId := by
  cases l with
  | nil => simp [linkHeadWinner] at h
  | cons a rest =>
    rw [linkHeadWinner, List.mem_cons] at h
    rcases h with h | h
    · exact ⟨a, List.mem_cons_self a rest, by rw [h], by rw [h]⟩
    · exact ⟨m', List.mem_cons_of_mem a h, rfl, rfl⟩

end Tournament

namespace Tournament

lemma range'_one_cons (k : Nat) (h : 1 ≤ k) :
    List.range' 1 k = 1 :: List.range' 2 (k - 1) := by
  rw [show k = (k - 1) + 1 from by omega]
  rfl

/-- C5 counterexample: with two players the winners bracket is a single
round-1 match — the winners final — and its `loserGoesToMatchId` is never
set, so it is not the case that every winners match of every round `1..R`
drops its loser into the losers bracket. -/
theorem bracket_losers_link_cex :
    numRoundsWinners 2 = 1 ∧
    (createDoubleEliminationBracket [1, 2]).winnersMatches.map
        (fun m => (m.round, m.loserGoesToMatchId)) = [(1, none)] :=
  ⟨rfl, rfl⟩

/-- C5 (amended): in the bracket built for at least two players, every
winners-bracket **round-1** match has `loserGoesToMatchId` set whenever
there are at least three players (so a round-1 losers round exists), while
the winners **final** (round `R`) never has it set — its loser does not
drop into the losers bracket. -/
theorem bracket_losers_link (players : List Nat) (h2 : 2 ≤ players.length) :
    ∀ m ∈ (createDoubleEliminationBracket players).winnersMatches,
      (3 ≤ players.length → m.round = 1 → m.loserGoesToMatchId ≠ none) ∧
      (numRoundsWinners players.length ≤ m.round →
        m.loserGoesToMatchId = none) := by
  intro m hm
  have hR1 : 1 ≤ numRoundsWinners players.length := numRoundsWinners_pos _ h2
  obtain ⟨hBne, hBlen, hBnum, hBnone⟩ := buildWinners_inv
    (numRoundsWinners players.length - 1) [winnersRound1 players]
    (bracketSize players.length / 2) 2 (by simp)
    ⟨winnersRound1_round players, trivial⟩ rfl
    (fun m0 hm0 => winnersRound1_loserGoesTo players m0 (by simpa using hm0))
  set W := (winnersStage players).1 with hWdef
  have hWrev : W = (buildWinners (numRoundsWinners players.length - 1)
      [winnersRound1 players] (bracketSize players.length / 2) 2).1.reverse :=
    rfl
  have hWlen : W.length = numRoundsWinners players.length := by
    rw [hWrev, List.length_reverse, hBlen]
    simp
    omega
  have hWnum : RoundsNumbered 1 W := by
    rw [hWrev]
    exact hBnum
  have hWnone : ∀ m0, m0 ∈ W.flatten → m0.loserGoesToMatchId = none := by
    intro m0 hm0
    rw [hWrev] at hm0
    obtain ⟨l, hl, hml⟩ := List.mem_flatten.mp hm0
    exact hBnone m0 (List.mem_flatten.mpr ⟨l, List.mem_reverse.mp hl, hml⟩)
  set NLR := (numRoundsWinners players.length - 1) * 2 with hNLR
  set LS := losersStage W (winnersStage players).2 NLR with hLSdef
  have hLSfold : LS = (List.range' 1 NLR).foldl losersIter
      (W, [], (winnersStage players).2) := rfl
  obtain ⟨hF1, hF2, hF3, hF4⟩ := losersFold_facts (List.range' 1 NLR) W []
    (winnersStage players).2
  rw [← hLSfold] at hF1 hF2 hF3 hF4
  have hm' : m ∈ (modifyNth (linkHeadWinner LS.2.2) (LS.1.length - 1)
      LS.1).flatten := hm
  obtain ⟨i, hilen, hmi⟩ := flatten_mem_getD _ _ hm'
  rw [modifyNth_length] at hilen
  have hmain : ∃ m1, m1 ∈ LS.1.getD i [] ∧ m.round = m1.round ∧
      m.loserGoesToMatchId = m1.loserGoesToMatchId := by
    by_cases hi : i = LS.1.length - 1
    · subst hi
      rw [modifyNth_getD_self _ _ _ (by omega)] at hmi
      obtain ⟨m1, hm1, hrd, hlg⟩ := linkHeadWinner_mem _ _ _ hmi
      exact ⟨m1, hm1, hrd, hlg⟩
    · rw [modifyNth_getD_ne _ _ _ _ hi] at hmi
      exact ⟨m, hmi, rfl, rfl⟩
  obtain ⟨m1, hm1, hmrd, hmlg⟩ := hmain
  obtain ⟨m0, hm0, hrd0, hlg0⟩ := hF4 i m1 hm1
  have hm0round : m0.round = 1 + i := RoundsNumbered_getD 1 W hWnum i m0 hm0
  have hmround' : m.round = 1 + i := by rw [hmrd, hrd0, hm0round]
  have hLS1len : LS.1.length = W.length := hF1
  constructor
  · intro h3 hmround
    have hR2 : 2 ≤ numRoundsWinners players.length := numRoundsWinners_ge2 _ h3
    have hi0 : i = 0 := by omega
    subst hi0
    have hsplit : List.range' 1 NLR = 1 :: List.range' 2 (NLR - 1) :=
      range'_one_cons NLR (by rw [hNLR]; omega)
    have hone : (losersIter (W, [], (winnersStage players).2) 1).1.getD 0 [] =
        linkLoserDrop1 (winnersStage players).2 (dropCount W 1)
          (W.getD 0 []) :=
      losersIter_one _ _ _ (by omega)
    obtain ⟨w1, l1, c1, heq1⟩ :
        ∃ w l cc, losersIter (W, [], (winnersStage players).2) 1 =
          (w, l, cc) := ⟨_, _, _, rfl⟩
    have hrest := (losersFold_facts (List.range' 2 (NLR - 1)) w1 l1 c1).2.1
      (fun hmem => by have := (List.mem_range'_1.mp hmem).1; omega)
    have hLS0 : LS.1.getD 0 [] = w1.getD 0 [] := by
      rw [hLSfold, hsplit, List.foldl_cons, heq1]
      exact hrest
    have hlink : ∀ m' ∈ w1.getD 0 [], m'.loserGoesToMatchId ≠ none := by
      intro m' hmm
      have hW0 : w1.getD 0 [] = linkLoserDrop1 (winnersStage players).2
          (dropCount W 1) (W.getD 0 []) := by
        rw [← hone, heq1]
      rw [hW0] at hmm
      refine linkLoserDrop1_all_linked _ _ _ ?_ m' hmm
      show (W.getD 0 []).length ≤ 2 * (((W.getD 0 []).length + 1) / 2)
      omega
    rw [hmlg]
    exact hlink m1 (by rw [← hLS0]; exact hm1)
  · intro hge
    have hBounds : ∀ r ∈ List.range' 1 NLR, r ≤ 2 * (W.length - 1) := by
      intro r hr
      have hmr := List.mem_range'_1.mp hr
      rw [hNLR] at hmr
      rw [hWlen]
      omega
    have hlast : LS.1.getD (W.length - 1) [] = W.getD (W.length - 1) [] :=
      hF3 hBounds
    rw [hmlg]
    have hiW : i = W.length - 1 := by omega
    have hm1W : m1 ∈ W.getD (W.length - 1) [] := by
      rw [← hlast, ← hiW]
      exact hm1
    exact hWnone m1 (getD_mem_flatten _ _ _ hm1W)

/-- C5 witness: the amended statement instantiated for four players. -/
theorem bracket_losers_link_witness :
    2 ≤ ([1, 2, 3, 4] : List Nat).length ∧
    ∀ m ∈ (createDoubleEliminationBracket [1, 2, 3, 4]).winnersMatches,
      (3 ≤ ([1, 2, 3, 4] : List Nat).length → m.round = 1 →
        m.loserGoesToMatchId ≠ none) ∧
      (numRoundsWinners ([1, 2, 3, 4] : List Nat).length ≤ m.round →
        m.loserGoesToMatchId = none) :=
  ⟨by decide, bracket_losers_link [1, 2, 3, 4] (by decide)⟩

end Tournament
